import Mathlib

/-!
# The event state machine of the nodeset loader

A shallow embedding of `src/nodesetLoader.c`: the SAX handlers
`OnStartElementNs`, `OnEndElementNs` and `OnCharacters`, the chunked reader
`read_xmlfile` and the entry point `loadFile`.

Collaborators that live outside this file of the repository (the graph
`Nodeset_*`, the value decoder behind `valIf`, the tokenizer, the sorter) are
not interpreted: every call made to them is appended, with its arguments, to a
call log, and the handles they return are fresh identifiers.
-/

namespace NodesetLoader

/-! ## Data model -/

/-- One `char` of a C string. -/
abbrev Byte := Fin 256

/-- The contents of a character buffer, without the terminating zero byte that
follows it in memory. -/
abbrev CString := List Byte

/-- The attribute array handed over by the tokenizer (`nb_attributes`,
`attributes`); the handlers only pass it on. -/
abbrev Attrs := List (String × String)

/-- C `strlen`: the number of bytes before the first zero byte. -/
def strlen (s : CString) : Nat := (s.takeWhile (fun b => b ≠ 0)).length

/-- Modelled from the spec: `strEqual` of `util.h` (absent from the sources),
the equality test on element names used by the transition table. -/
def strEqual (a b : String) : Bool := decide (a = b)

/-- Modelled from the spec: the element vocabulary of section 6; the macros
themselves are defined in `nodeset.h`, absent from the sources. -/
def VARIABLE : String := "UAVariable"
/-- Modelled from the spec: element name macro of `nodeset.h`. -/
def OBJECT : String := "UAObject"
/-- Modelled from the spec: element name macro of `nodeset.h`. -/
def OBJECTTYPE : String := "UAObjectType"
/-- Modelled from the spec: element name macro of `nodeset.h`. -/
def DATATYPE : String := "UADataType"
/-- Modelled from the spec: element name macro of `nodeset.h`. -/
def METHOD : String := "UAMethod"
/-- Modelled from the spec: element name macro of `nodeset.h`. -/
def REFERENCETYPE : String := "UAReferenceType"
/-- Modelled from the spec: element name macro of `nodeset.h`. -/
def VARIABLETYPE : String := "UAVariableType"
/-- Modelled from the spec: element name macro of `nodeset.h`. -/
def NAMESPACEURIS : String := "NamespaceUris"
/-- Modelled from the spec: element name macro of `nodeset.h`. -/
def NAMESPACEURI : String := "Uri"
/-- Modelled from the spec: element name macro of `nodeset.h`. -/
def ALIAS : String := "Alias"
/-- Modelled from the spec: element name macro of `nodeset.h`. -/
def DISPLAYNAME : String := "DisplayName"
/-- Modelled from the spec: element name macro of `nodeset.h`. -/
def REFERENCES : String := "References"
/-- Modelled from the spec: element name macro of `nodeset.h`. -/
def REFERENCE : String := "Reference"
/-- Modelled from the spec: element name macro of `nodeset.h`. -/
def DESCRIPTION : String := "Description"
/-- Modelled from the spec: element name macro of `nodeset.h`. -/
def VALUE : String := "Value"

/-- The parser states, `TParserState` of the source. -/
inductive TParserState where
  | PARSER_STATE_INIT
  | PARSER_STATE_NODE
  | PARSER_STATE_DISPLAYNAME
  | PARSER_STATE_REFERENCES
  | PARSER_STATE_REFERENCE
  | PARSER_STATE_DESCRIPTION
  | PARSER_STATE_ALIAS
  | PARSER_STATE_UNKNOWN
  | PARSER_STATE_NAMESPACEURIS
  | PARSER_STATE_URI
  | PARSER_STATE_VALUE
  deriving DecidableEq, Repr

/-- Modelled from the spec: the node classes (`TNodeClass` of `nodeset.h`). -/
inductive TNodeClass where
  | NODECLASS_VARIABLE
  | NODECLASS_OBJECT
  | NODECLASS_OBJECTTYPE
  | NODECLASS_DATATYPE
  | NODECLASS_METHOD
  | NODECLASS_REFERENCETYPE
  | NODECLASS_VARIABLETYPE
  deriving DecidableEq, Repr

/-- One interaction of the handlers with a collaborator, with its arguments.
Pointers are handles (`Nat`), `none` is `NULL`. The two `store` entries are the
direct field writes `pctx->node->displayName = ...` and
`((TVariableNode*)pctx->node)->value = ...`. -/
inductive Call where
  | Nodeset_newNode (nodeClass : TNodeClass) (attributes : Attrs) (ret : Nat)
  | Nodeset_newNodeFinish (node : Option Nat)
  | Nodeset_newAlias (attributes : Attrs) (ret : Nat)
  | Nodeset_newAliasFinish (al : Option Nat) (text : Option CString)
  | Nodeset_newNamespace
  | Nodeset_newNamespaceFinish (userContext : Nat) (text : Option CString)
  | Nodeset_newReference (node : Option Nat) (attributes : Attrs) (ret : Nat)
  | Nodeset_newReferenceFinish (rf : Option Nat) (node : Option Nat) (text : Option CString)
  | valIf_newValue (node : Option Nat) (ret : Nat)
  | valIf_start (val : Option Nat) (localname : String)
  | valIf_end (val : Option Nat) (localname : String) (text : Option CString)
  | valIf_finish (val : Option Nat)
  | store_displayName (node : Nat) (text : Option CString)
  | store_value (node : Nat) (val : Option Nat)
  deriving DecidableEq, Repr

/-- Modelled from the spec: the graph `Nodeset` (its code is absent from the
sources). It is the chronological log of the calls made on it and on the
objects it owns; an object created by a call gets the position of that call
as its handle, so handles are never null and never reused. -/
structure Nodeset where
  calls : List Call
  deriving DecidableEq, Repr

/-- Modelled from the spec: the value decoder's function table
(`ValueInterface`, declared in the absent `nodesetLoader.h`): `newValue`,
`start`, `end` and `finish`, whose invocations are logged. -/
structure ValueInterface where
  table : Nat
  deriving DecidableEq, Repr

/-- The parser context, `struct TParserCtx`. `unknown_depth` is a `size_t`; it
is a natural number here and its increment is not wrapped: it grows by one per
start-element event only, so reaching the upper end of `size_t` takes more
events than an input can hold (`unknown_depth_le_events`). The wrap of the
decrement below zero is modelled, see `OnEndElementNs`. -/
structure TParserCtx where
  state : TParserState
  prev_state : TParserState
  unknown_depth : Nat
  nodeClass : Option TNodeClass
  node : Option Nat
  alias_ : Option Nat
  onCharacters : Option CString
  userContext : Nat
  val : Option Nat
  valIf : Option ValueInterface
  ref : Option Nat
  nodeset : Nodeset
  deriving DecidableEq, Repr

/-- Appends one call to the log of the graph. -/
def Nodeset.record (ns : Nodeset) (c : Call) : Nodeset := ⟨ns.calls ++ [c]⟩

/-- The handle the next created object will get. -/
def Nodeset.fresh (ns : Nodeset) : Nat := ns.calls.length

/-! ## The handlers -/

/-- Source: `enterUnknownState`. -/
def enterUnknownState (ctx : TParserCtx) : TParserCtx :=
  { ctx with
    prev_state := ctx.state
    state := .PARSER_STATE_UNKNOWN
    unknown_depth := 1 }

/-- The three statements shared by the seven node-class branches of
`OnStartElementNs`: set `nodeClass`, call `Nodeset_newNode`, enter
`PARSER_STATE_NODE`. -/
def startNode (pctx : TParserCtx) (cls : TNodeClass) (attributes : Attrs) : TParserCtx :=
  { pctx with
    nodeClass := some cls
    node := some pctx.nodeset.fresh
    nodeset := pctx.nodeset.record (.Nodeset_newNode cls attributes pctx.nodeset.fresh)
    state := .PARSER_STATE_NODE }

/-- The `switch` of `OnStartElementNs`, before the final text reset. The result
is `none` when the code dereferences a null pointer (`pctx->valIf`). -/
def startSwitch (pctx : TParserCtx) (localname : String) (attributes : Attrs) :
    Option TParserCtx :=
  match pctx.state with
  | .PARSER_STATE_INIT =>
    if strEqual localname VARIABLE then
      some (startNode pctx .NODECLASS_VARIABLE attributes)
    else if strEqual localname OBJECT then
      some (startNode pctx .NODECLASS_OBJECT attributes)
    else if strEqual localname OBJECTTYPE then
      some (startNode pctx .NODECLASS_OBJECTTYPE attributes)
    else if strEqual localname DATATYPE then
      some (startNode pctx .NODECLASS_DATATYPE attributes)
    else if strEqual localname METHOD then
      some (startNode pctx .NODECLASS_METHOD attributes)
    else if strEqual localname REFERENCETYPE then
      some (startNode pctx .NODECLASS_REFERENCETYPE attributes)
    else if strEqual localname VARIABLETYPE then
      some (startNode pctx .NODECLASS_VARIABLETYPE attributes)
    else if strEqual localname NAMESPACEURIS then
      some { pctx with state := .PARSER_STATE_NAMESPACEURIS }
    else if strEqual localname ALIAS then
      some { pctx with
        node := none
        alias_ := some pctx.nodeset.fresh
        nodeset := pctx.nodeset.record (.Nodeset_newAlias attributes pctx.nodeset.fresh)
        state := .PARSER_STATE_ALIAS }
    else if strEqual localname "UANodeSet" || strEqual localname "Aliases" ||
        strEqual localname "Extensions" then
      some { pctx with state := .PARSER_STATE_INIT }
    else
      some (enterUnknownState pctx)
  | .PARSER_STATE_NAMESPACEURIS =>
    if strEqual localname NAMESPACEURI then
      some { pctx with
        nodeset := pctx.nodeset.record .Nodeset_newNamespace
        state := .PARSER_STATE_URI }
    else
      some (enterUnknownState pctx)
  | .PARSER_STATE_URI => some (enterUnknownState pctx)
  | .PARSER_STATE_NODE =>
    if strEqual localname DISPLAYNAME then
      some { pctx with state := .PARSER_STATE_DISPLAYNAME }
    else if strEqual localname REFERENCES then
      some { pctx with state := .PARSER_STATE_REFERENCES }
    else if strEqual localname DESCRIPTION then
      some { pctx with state := .PARSER_STATE_DESCRIPTION }
    else if strEqual localname VALUE then
      match pctx.valIf with
      | none => none
      | some _ =>
        some { pctx with
          val := some pctx.nodeset.fresh
          nodeset := pctx.nodeset.record (.valIf_newValue pctx.node pctx.nodeset.fresh)
          state := .PARSER_STATE_VALUE }
    else
      some (enterUnknownState pctx)
  | .PARSER_STATE_VALUE =>
    match pctx.valIf with
    | none => none
    | some _ =>
      some { pctx with nodeset := pctx.nodeset.record (.valIf_start pctx.val localname) }
  | .PARSER_STATE_REFERENCES =>
    if strEqual localname REFERENCE then
      some { pctx with
        state := .PARSER_STATE_REFERENCE
        ref := some pctx.nodeset.fresh
        nodeset := pctx.nodeset.record
          (.Nodeset_newReference pctx.node attributes pctx.nodeset.fresh) }
    else
      some (enterUnknownState pctx)
  | .PARSER_STATE_DESCRIPTION => some (enterUnknownState pctx)
  | .PARSER_STATE_ALIAS => some (enterUnknownState pctx)
  | .PARSER_STATE_DISPLAYNAME => some (enterUnknownState pctx)
  | .PARSER_STATE_REFERENCE => some (enterUnknownState pctx)
  | .PARSER_STATE_UNKNOWN =>
    some { pctx with unknown_depth := pctx.unknown_depth + 1 }

/-- Source: `OnStartElementNs`. The parameters the handler never reads
(namespace prefix, URI, namespace list, defaulted count) are left out. -/
def OnStartElementNs (pctx : TParserCtx) (localname : String) (attributes : Attrs) :
    Option TParserCtx :=
  (startSwitch pctx localname attributes).map fun c => { c with onCharacters := none }

/-- The `switch` of `OnEndElementNs`, before the final text reset. The result
is `none` when the code dereferences a null pointer (`pctx->node`,
`pctx->valIf`). The decrement of the unsigned `unknown_depth` wraps from zero
to the largest `size_t`. -/
def endSwitch (pctx : TParserCtx) (localname : String) : Option TParserCtx :=
  match pctx.state with
  | .PARSER_STATE_INIT => some pctx
  | .PARSER_STATE_ALIAS =>
    some { pctx with
      nodeset := pctx.nodeset.record (.Nodeset_newAliasFinish pctx.alias_ pctx.onCharacters)
      state := .PARSER_STATE_INIT }
  | .PARSER_STATE_URI =>
    some { pctx with
      nodeset := pctx.nodeset.record
        (.Nodeset_newNamespaceFinish pctx.userContext pctx.onCharacters)
      state := .PARSER_STATE_NAMESPACEURIS }
  | .PARSER_STATE_NAMESPACEURIS => some { pctx with state := .PARSER_STATE_INIT }
  | .PARSER_STATE_NODE =>
    some { pctx with
      nodeset := pctx.nodeset.record (.Nodeset_newNodeFinish pctx.node)
      state := .PARSER_STATE_INIT }
  | .PARSER_STATE_DISPLAYNAME =>
    match pctx.node with
    | none => none
    | some n =>
      some { pctx with
        nodeset := pctx.nodeset.record (.store_displayName n pctx.onCharacters)
        state := .PARSER_STATE_NODE }
  | .PARSER_STATE_REFERENCES => some { pctx with state := .PARSER_STATE_NODE }
  | .PARSER_STATE_REFERENCE =>
    some { pctx with
      nodeset := pctx.nodeset.record
        (.Nodeset_newReferenceFinish pctx.ref pctx.node pctx.onCharacters)
      state := .PARSER_STATE_REFERENCES }
  | .PARSER_STATE_VALUE =>
    match pctx.valIf with
    | none => none
    | some _ =>
      if localname = VALUE then
        match pctx.node with
        | none => none
        | some n =>
          some { pctx with
            nodeset := (pctx.nodeset.record (.valIf_finish pctx.val)).record
              (.store_value n pctx.val)
            state := .PARSER_STATE_NODE }
      else
        some { pctx with
          nodeset := pctx.nodeset.record (.valIf_end pctx.val localname pctx.onCharacters) }
  | .PARSER_STATE_DESCRIPTION => some { pctx with state := .PARSER_STATE_NODE }
  | .PARSER_STATE_UNKNOWN =>
    let d := if pctx.unknown_depth = 0 then 2 ^ 64 - 1 else pctx.unknown_depth - 1
    if d = 0 then
      some { pctx with unknown_depth := d, state := pctx.prev_state }
    else
      some { pctx with unknown_depth := d }

/-- Source: `OnEndElementNs` (prefix and URI, never read, are left out). -/
def OnEndElementNs (pctx : TParserCtx) (localname : String) : Option TParserCtx :=
  (endSwitch pctx localname).map fun c => { c with onCharacters := none }

/-- The buffer computed by `OnCharacters`. The arena hands out zero-filled
memory, so the new buffer of `oldLength + len + 1` bytes holds the old string
up to its terminator (`oldLength = strlen(oldString)` bytes), then the `len`
delivered bytes, then a zero byte. -/
def appendChars (oldString : Option CString) (ch : CString) : CString :=
  let oldLength := match oldString with
    | none => 0
    | some s => strlen s
  match oldString with
  | none => ch
  | some s => s.take oldLength ++ ch

/-- Source: `OnCharacters`. -/
def OnCharacters (pctx : TParserCtx) (ch : CString) : TParserCtx :=
  { pctx with onCharacters := some (appendChars pctx.onCharacters ch) }

/-! ## Events -/

/-- One callback of the tokenizer into the handlers. -/
inductive SaxEvent where
  | startElementNs (localname : String) (attributes : Attrs)
  | endElementNs (localname : String)
  | characters (ch : CString)
  deriving DecidableEq, Repr

/-- The handler table of `make_sax_handler`: which handler an event reaches. -/
def dispatch (pctx : TParserCtx) : SaxEvent → Option TParserCtx
  | .startElementNs localname attributes => OnStartElementNs pctx localname attributes
  | .endElementNs localname => OnEndElementNs pctx localname
  | .characters ch => some (OnCharacters pctx ch)

/-- The handlers applied to a sequence of events, in order; `none` once a
handler has dereferenced a null pointer. -/
def run (pctx : TParserCtx) : List SaxEvent → Option TParserCtx
  | [] => some pctx
  | e :: es => (dispatch pctx e).bind fun c => run c es

/-- A well-nested piece of a document: a sequence of siblings, each one either
character data or an element with its own children. -/
inductive Forest where
  | nil
  | text (ch : CString) (rest : Forest)
  | elem (localname : String) (attributes : Attrs) (children : Forest) (rest : Forest)
  deriving DecidableEq, Repr

/-- The events a tokenizer delivers for a well-nested piece of a document. -/
def Forest.events : Forest → List SaxEvent
  | .nil => []
  | .text ch rest => .characters ch :: rest.events
  | .elem localname attributes children rest =>
    .startElementNs localname attributes ::
      (children.events ++ .endElementNs localname :: rest.events)

/-- Whether `OnStartElementNs` has an `if` branch for the element name in the
given state (read off the `if` chains of its `switch`; the states `Value` and
`Unknown`, which treat all names alike, have none). -/
def recognised : TParserState → String → Bool
  | .PARSER_STATE_INIT, n =>
    n = VARIABLE || n = OBJECT || n = OBJECTTYPE || n = DATATYPE || n = METHOD ||
    n = REFERENCETYPE || n = VARIABLETYPE || n = NAMESPACEURIS || n = ALIAS ||
    n = "UANodeSet" || n = "Aliases" || n = "Extensions"
  | .PARSER_STATE_NAMESPACEURIS, n => n = NAMESPACEURI
  | .PARSER_STATE_NODE, n =>
    n = DISPLAYNAME || n = REFERENCES || n = DESCRIPTION || n = VALUE
  | .PARSER_STATE_REFERENCES, n => n = REFERENCE
  | _, _ => false

/-- The context `loadFile` sets up before parsing. The fields it leaves
uninitialised (`nodeClass`, `node`, `alias`, `val`, `ref`) are null here. -/
def initialCtx (userContext : Nat) (valIf : Option ValueInterface) : TParserCtx :=
  { state := .PARSER_STATE_INIT
    prev_state := .PARSER_STATE_INIT
    unknown_depth := 0
    nodeClass := none
    node := none
    alias_ := none
    onCharacters := none
    userContext := userContext
    val := none
    valIf := valIf
    ref := none
    nodeset := ⟨[]⟩ }

/-! ## Reading and loading -/

/-- Modelled from the spec: the tokenizer, the push parser of libxml2 used
through `xmlCreatePushParserCtxt` and `xmlParseChunk`. Creating it stores the
first bytes; a feed returns the new tokenizer state, the events it delivers to
the handlers during that feed, and its status (zero when no malformedness is
reported). -/
structure Tokenizer (τ : Type) where
  xmlCreatePushParserCtxt : CString → τ
  xmlParseChunk : τ → CString → Bool → τ × List SaxEvent × Int

/-- A step of `loadFile` or `read_xmlfile` that reaches a collaborator. -/
inductive LoaderCall where
  | Nodeset_new (addNamespace : Nat)
  | fopen (file : String)
  | xmlCreatePushParserCtxt (chunk : CString)
  | xmlParseChunk (chunk : CString) (terminate : Bool)
  | Nodeset_getSortedNodes (nodeset : Nodeset) (userContext : Nat) (callback : Nat)
      (valIf : Option ValueInterface)
  | Nodeset_cleanup
  | fclose
  deriving DecidableEq, Repr

/-- What `read_xmlfile` leaves behind: its return value, the parser context
after the events of all feeds, and the tokenizer calls it made, in order. -/
structure ReadResult where
  ret : Int
  ctx : TParserCtx
  feeds : List LoaderCall
  deriving DecidableEq, Repr

/-- The terminating feed `xmlParseChunk(ctxt, chars, 0, 1)` and `return 0` of
`read_xmlfile`; the status of that feed is dropped. -/
def finalFeed {τ : Type} (tok : Tokenizer τ) (t : τ) (ctx : TParserCtx)
    (feeds : List LoaderCall) : Option ReadResult :=
  match run ctx (tok.xmlParseChunk t [] true).2.1 with
  | none => none
  | some ctx1 => some ⟨0, ctx1, feeds ++ [.xmlParseChunk [] true]⟩

/-- The `while` loop of `read_xmlfile` over the bytes not yet read, followed by
the terminating feed. Each round reads at least one byte, so a fuel equal to
the number of remaining bytes is never used up before the end of the file. -/
def feedLoop {τ : Type} (tok : Tokenizer τ) :
    Nat → τ → TParserCtx → CString → List LoaderCall → Option ReadResult
  | 0, t, ctx, _, feeds => finalFeed tok t ctx feeds
  | fuel + 1, t, ctx, rest, feeds =>
    let chunk := rest.take 1024
    if 0 < chunk.length then
      match run ctx (tok.xmlParseChunk t chunk false).2.1 with
      | none => none
      | some ctx1 =>
        if (tok.xmlParseChunk t chunk false).2.2 ≠ 0 then
          some ⟨1, ctx1, feeds ++ [.xmlParseChunk chunk false]⟩
        else
          feedLoop tok fuel (tok.xmlParseChunk t chunk false).1 ctx1 (rest.drop 1024)
            (feeds ++ [.xmlParseChunk chunk false])
    else
      finalFeed tok t ctx feeds

/-- Source: `read_xmlfile`, on the contents of the opened file. `fread`
delivers the requested number of bytes, or what is left of the file. The result
is `none` when a handler dereferences a null pointer. -/
def read_xmlfile {τ : Type} (tok : Tokenizer τ) (f : CString) (parserCtxt : TParserCtx) :
    Option ReadResult :=
  let chars := f.take 4
  if chars.length ≤ 0 then
    some ⟨1, parserCtxt, []⟩
  else
    feedLoop tok (f.drop 4).length (tok.xmlCreatePushParserCtxt chars) parserCtxt (f.drop 4)
      [.xmlCreatePushParserCtxt chars]

/-- Modelled from the spec: the file handler (`FileHandler`, declared in the
absent `nodesetLoader.h`): the file path, the namespace-remap callback, the
sink callback, the value-decoder interface and the user context. A missing
callback is a null pointer. -/
structure FileHandler where
  file : String
  addNamespace : Option Nat
  callback : Option Nat
  valueHandling : Option ValueInterface
  userContext : Nat
  deriving DecidableEq, Repr

/-- The collaborators `loadFile` runs against: the file system, the tokenizer
and the sorter `Nodeset_getSortedNodes`, which drives the sink and reports
success. -/
structure World (τ : Type) where
  fopen : String → Option CString
  tokenizer : Tokenizer τ
  Nodeset_getSortedNodes : Nodeset → Nat → Nat → Option ValueInterface → Bool

/-- The outcome of `loadFile`: the returned status and the collaborator calls
it made, in order. -/
structure LoadResult where
  status : Bool
  trace : List LoaderCall
  deriving DecidableEq, Repr

/-- Source: `loadFile`. Timing and printing are left out. The result is `none`
when a handler dereferences a null pointer during parsing. -/
def loadFile {τ : Type} (w : World τ) (fileHandler : Option FileHandler) :
    Option LoadResult :=
  match fileHandler with
  | none => some ⟨false, []⟩
  | some fh =>
    match fh.addNamespace with
    | none => some ⟨false, []⟩
    | some addNamespace =>
      match fh.callback with
      | none => some ⟨false, []⟩
      | some callback =>
        let ctx := initialCtx fh.userContext fh.valueHandling
        match w.fopen fh.file with
        | none =>
          some ⟨false, [.Nodeset_new addNamespace, .fopen fh.file, .Nodeset_cleanup]⟩
        | some f =>
          match read_xmlfile w.tokenizer f ctx with
          | none => none
          | some r =>
            let status1 := if r.ret ≠ 0 then false else true
            let sorted := w.Nodeset_getSortedNodes r.ctx.nodeset fh.userContext callback
              r.ctx.valIf
            let status2 := if !sorted then false else status1
            some ⟨status2,
              [.Nodeset_new addNamespace, .fopen fh.file] ++ r.feeds ++
              [.Nodeset_getSortedNodes r.ctx.nodeset fh.userContext callback r.ctx.valIf,
               .Nodeset_cleanup, .fclose]⟩

/-- The display name a node has after the logged calls: the text of the last
store into its `displayName` field (null before the first store). -/
def Nodeset.displayName (ns : Nodeset) (n : Nat) : Option CString :=
  ns.calls.foldl (fun acc call =>
    match call with
    | .store_displayName m t => if m = n then t else acc
    | _ => acc) none

/-- The events of a `DisplayName` element whose content is character data
only, delivered in the given fragments. -/
def displayNameEvents (attributes : Attrs) (fragments : List CString) : List SaxEvent :=
  .startElementNs DISPLAYNAME attributes ::
    (fragments.map .characters ++ [.endElementNs DISPLAYNAME])

/-- The accumulated text after the given fragments were delivered, one
`OnCharacters` call each, onto the pending text `acc`. -/
def accumulate (acc : Option CString) (fragments : List CString) : Option CString :=
  fragments.foldl (fun a ch => some (appendChars a ch)) acc

/-- Whether a piece of a document has an element among its top-level items. -/
def Forest.hasElem : Forest → Bool
  | .nil => false
  | .text _ rest => rest.hasElem
  | .elem _ _ _ _ => true

/-- The top-level character data that follows the last top-level element (all
of it when there is no element), as delivered. -/
def Forest.trailing : Forest → List CString
  | .nil => []
  | .text ch rest => if rest.hasElem then rest.trailing else ch :: rest.trailing
  | .elem _ _ _ rest => rest.trailing

/-- The character data that belongs directly to the enclosing element: its
top-level fragments, concatenated. -/
def Forest.ownText : Forest → CString
  | .nil => []
  | .text ch rest => ch ++ rest.ownText
  | .elem _ _ _ rest => rest.ownText

/-- The events of a `DisplayName` element with arbitrary well-nested content. -/
def displayNameElement (attributes : Attrs) (content : Forest) : List SaxEvent :=
  .startElementNs DISPLAYNAME attributes :: (content.events ++ [.endElementNs DISPLAYNAME])

/-- The context without the two fields that are only read inside an unknown
subtree and are overwritten on entering one: outside the state Unknown,
`prev_state` and `unknown_depth` are set to fixed values. -/
def forgetSaved (c : TParserCtx) : TParserCtx :=
  if c.state = .PARSER_STATE_UNKNOWN then c
  else { c with prev_state := .PARSER_STATE_INIT, unknown_depth := 0 }

/-- A tokenizer for examples: its state is the list of bytes received so far;
a non-terminating feed delivers the events `delivered` and reports `status`,
the terminating feed delivers `atEnd` and reports `endStatus`. -/
def sampleTokenizer (delivered : List SaxEvent) (status : Int) (atEnd : List SaxEvent)
    (endStatus : Int) : Tokenizer CString where
  xmlCreatePushParserCtxt := fun chunk => chunk
  xmlParseChunk := fun t chunk terminate =>
    if terminate then (t ++ chunk, atEnd, endStatus) else (t ++ chunk, delivered, status)

/-- A world for examples: one file `nodeset.xml` with the given contents, the
tokenizer `sampleTokenizer`, and a sorter that succeeds. -/
def sampleWorld (contents : CString) (delivered : List SaxEvent) (status : Int)
    (atEnd : List SaxEvent) (endStatus : Int) : World CString where
  fopen := fun file => if file = "nodeset.xml" then some contents else none
  tokenizer := sampleTokenizer delivered status atEnd endStatus
  Nodeset_getSortedNodes := fun _ _ _ _ => true

/-- The states in which a handler may dereference `pctx->node`, or lead to one
that does without setting `node` first. -/
def needsNode : TParserState → Bool
  | .PARSER_STATE_NODE => true
  | .PARSER_STATE_DISPLAYNAME => true
  | .PARSER_STATE_REFERENCES => true
  | .PARSER_STATE_REFERENCE => true
  | .PARSER_STATE_DESCRIPTION => true
  | .PARSER_STATE_VALUE => true
  | _ => false

/-- The contexts in which no handler dereferences a null pointer: the decoder
interface is present, and the current node is set whenever the state (or the
state saved for the return from Unknown) is one inside a node. -/
def safeCtx (c : TParserCtx) : Bool :=
  c.valIf.isSome &&
    (c.node.isSome ||
      (!needsNode c.state && !(c.state == .PARSER_STATE_UNKNOWN && needsNode c.prev_state)))

/-- The node class `OnStartElementNs` creates for an element name in the state
Init, if any (the first seven branches of the `if` chain). -/
def nodeClassOf (localname : String) : Option TNodeClass :=
  if strEqual localname VARIABLE then some .NODECLASS_VARIABLE
  else if strEqual localname OBJECT then some .NODECLASS_OBJECT
  else if strEqual localname OBJECTTYPE then some .NODECLASS_OBJECTTYPE
  else if strEqual localname DATATYPE then some .NODECLASS_DATATYPE
  else if strEqual localname METHOD then some .NODECLASS_METHOD
  else if strEqual localname REFERENCETYPE then some .NODECLASS_REFERENCETYPE
  else if strEqual localname VARIABLETYPE then some .NODECLASS_VARIABLETYPE
  else none

/-- The container names that leave the state Init unchanged. -/
def isTransparent (localname : String) : Bool :=
  strEqual localname "UANodeSet" || strEqual localname "Aliases" ||
    strEqual localname "Extensions"

/-- The state `OnStartElementNs` enters, by current state and element name (the
state component of its `switch`). -/
def startTarget : TParserState → String → TParserState
  | .PARSER_STATE_INIT, n =>
    if (nodeClassOf n).isSome then .PARSER_STATE_NODE
    else if strEqual n NAMESPACEURIS then .PARSER_STATE_NAMESPACEURIS
    else if strEqual n ALIAS then .PARSER_STATE_ALIAS
    else if isTransparent n then .PARSER_STATE_INIT
    else .PARSER_STATE_UNKNOWN
  | .PARSER_STATE_NAMESPACEURIS, n =>
    if strEqual n NAMESPACEURI then .PARSER_STATE_URI else .PARSER_STATE_UNKNOWN
  | .PARSER_STATE_NODE, n =>
    if strEqual n DISPLAYNAME then .PARSER_STATE_DISPLAYNAME
    else if strEqual n REFERENCES then .PARSER_STATE_REFERENCES
    else if strEqual n DESCRIPTION then .PARSER_STATE_DESCRIPTION
    else if strEqual n VALUE then .PARSER_STATE_VALUE
    else .PARSER_STATE_UNKNOWN
  | .PARSER_STATE_VALUE, _ => .PARSER_STATE_VALUE
  | .PARSER_STATE_REFERENCES, n =>
    if strEqual n REFERENCE then .PARSER_STATE_REFERENCE else .PARSER_STATE_UNKNOWN
  | _, _ => .PARSER_STATE_UNKNOWN

/-- The state `OnEndElementNs` enters from a state other than Unknown (the
state component of its `switch`). -/
def endTarget : TParserState → String → TParserState
  | .PARSER_STATE_INIT, _ => .PARSER_STATE_INIT
  | .PARSER_STATE_ALIAS, _ => .PARSER_STATE_INIT
  | .PARSER_STATE_URI, _ => .PARSER_STATE_NAMESPACEURIS
  | .PARSER_STATE_NAMESPACEURIS, _ => .PARSER_STATE_INIT
  | .PARSER_STATE_NODE, _ => .PARSER_STATE_INIT
  | .PARSER_STATE_DISPLAYNAME, _ => .PARSER_STATE_NODE
  | .PARSER_STATE_REFERENCES, _ => .PARSER_STATE_NODE
  | .PARSER_STATE_REFERENCE, _ => .PARSER_STATE_REFERENCES
  | .PARSER_STATE_VALUE, n => if n = VALUE then .PARSER_STATE_NODE else .PARSER_STATE_VALUE
  | .PARSER_STATE_DESCRIPTION, _ => .PARSER_STATE_NODE
  | .PARSER_STATE_UNKNOWN, _ => .PARSER_STATE_UNKNOWN

/-- Whether a call finalises a node. -/
def Call.isNodeFinish : Call → Bool
  | .Nodeset_newNodeFinish _ => true
  | _ => false

/-- The number of nodes finalised into the graph: the calls of
`Nodeset_newNodeFinish`. -/
def finishCount (ns : Nodeset) : Nat := ns.calls.countP Call.isNodeFinish

/-- No element of the piece, at any depth, is named `Value`. -/
def Forest.noValueElem : Forest → Bool
  | .nil => true
  | .text _ rest => rest.noValueElem
  | .elem n _ children rest => !strEqual n VALUE && children.noValueElem && rest.noValueElem

/-- No element named `Value` has a descendant element named `Value`. -/
def Forest.noNestedValue : Forest → Bool
  | .nil => true
  | .text _ rest => rest.noNestedValue
  | .elem n _ children rest =>
    (if strEqual n VALUE then children.noValueElem else children.noNestedValue) &&
      rest.noNestedValue

/-- The number of node-class elements occurring anywhere in the piece. -/
def Forest.nodeElements : Forest → Nat
  | .nil => 0
  | .text _ rest => rest.nodeElements
  | .elem n _ children rest =>
    (if (nodeClassOf n).isSome then 1 else 0) + children.nodeElements + rest.nodeElements

/-- The number of node-class elements that are top-level items of the piece or
are nested inside transparent containers (`UANodeSet`, `Aliases`,
`Extensions`) only. -/
def Forest.initNodeElements : Forest → Nat
  | .nil => 0
  | .text _ rest => rest.initNodeElements
  | .elem n _ children rest =>
    (if (nodeClassOf n).isSome then 1
      else if isTransparent n then children.initNodeElements else 0) +
      rest.initNodeElements

/-- Whether a call creates a node. -/
def Call.isNewNode : Call → Bool
  | .Nodeset_newNode _ _ _ => true
  | _ => false

/-- The number of nodes created in the graph: the calls of `Nodeset_newNode`. -/
def newNodeCount (ns : Nodeset) : Nat := ns.calls.countP Call.isNewNode

/-- The state that encloses a state in the nesting of the document vocabulary:
the state `OnEndElementNs` returns to from it (Init encloses itself). -/
def parentState : TParserState → TParserState
  | .PARSER_STATE_INIT => .PARSER_STATE_INIT
  | .PARSER_STATE_NODE => .PARSER_STATE_INIT
  | .PARSER_STATE_NAMESPACEURIS => .PARSER_STATE_INIT
  | .PARSER_STATE_ALIAS => .PARSER_STATE_INIT
  | .PARSER_STATE_URI => .PARSER_STATE_NAMESPACEURIS
  | .PARSER_STATE_DISPLAYNAME => .PARSER_STATE_NODE
  | .PARSER_STATE_REFERENCES => .PARSER_STATE_NODE
  | .PARSER_STATE_DESCRIPTION => .PARSER_STATE_NODE
  | .PARSER_STATE_VALUE => .PARSER_STATE_NODE
  | .PARSER_STATE_REFERENCE => .PARSER_STATE_REFERENCES
  | .PARSER_STATE_UNKNOWN => .PARSER_STATE_UNKNOWN

/-- Whether `s` is `t` or one of the states enclosing `t`. -/
def encloses (s t : TParserState) : Bool :=
  s == t || s == parentState t || s == parentState (parentState t) ||
    s == parentState (parentState (parentState t))

/-- A child element holding character data only, with the character data that
precedes it inside its parent. -/
structure LeafChild where
  before : List CString
  attributes : Attrs
  text : List CString
  deriving DecidableEq, Repr

/-- The events of one child element of the given name, after the character
data before it. -/
def leafChildEvents (localname : String) (r : LeafChild) : List SaxEvent :=
  r.before.map .characters ++
    (.startElementNs localname r.attributes ::
      (r.text.map .characters ++ [.endElementNs localname]))

/-- The events of a sequence of such children, in document order. -/
def leafChildrenEvents (localname : String) : List LeafChild → List SaxEvent
  | [] => []
  | r :: rs => leafChildEvents localname r ++ leafChildrenEvents localname rs

/-- The events of a `References` element whose children are `Reference`
elements holding character data only; `after` is the character data between
the last child and the end-element. -/
def referencesElement (attributes : Attrs) (rs : List LeafChild) (after : List CString) :
    List SaxEvent :=
  .startElementNs REFERENCES attributes ::
    (leafChildrenEvents REFERENCE rs ++ (after.map .characters ++ [.endElementNs REFERENCES]))

/-- The calls expected for the `Reference` children of a node: for each child,
in document order, `Nodeset_newReference` with the owning node and the child's
attributes, returning the handle `base`, then `Nodeset_newReferenceFinish` with
that handle, the owning node and the child's text. -/
def referenceCalls (node : Option Nat) (base : Nat) : List LeafChild → List Call
  | [] => []
  | r :: rs =>
    .Nodeset_newReference node r.attributes base ::
      .Nodeset_newReferenceFinish (some base) node (accumulate none r.text) ::
      referenceCalls node (base + 2) rs

/-- The events of a `NamespaceUris` element whose children are `Uri` elements
holding character data only, up to and including the first `shown` children. -/
def namespaceUrisPrefix (attributes : Attrs) (us : List LeafChild) (shown : Nat) :
    List SaxEvent :=
  .startElementNs NAMESPACEURIS attributes :: leafChildrenEvents NAMESPACEURI (us.take shown)

/-- The events of the whole `NamespaceUris` element. -/
def namespaceUrisElement (attributes : Attrs) (us : List LeafChild) (after : List CString) :
    List SaxEvent :=
  .startElementNs NAMESPACEURIS attributes ::
    (leafChildrenEvents NAMESPACEURI us ++
      (after.map .characters ++ [.endElementNs NAMESPACEURIS]))

/-- The calls expected for the `Uri` children: for each child, in document
order, `Nodeset_newNamespace`, then `Nodeset_newNamespaceFinish` with the user
context and the child's text. -/
def namespaceCalls (userContext : Nat) : List LeafChild → List Call
  | [] => []
  | u :: us =>
    .Nodeset_newNamespace ::
      .Nodeset_newNamespaceFinish userContext (accumulate none u.text) ::
      namespaceCalls userContext us

/-- The bytes a call hands to the tokenizer (none for the other calls). -/
def LoaderCall.chunk : LoaderCall → CString
  | .xmlCreatePushParserCtxt ch => ch
  | .xmlParseChunk ch _ => ch
  | _ => []

/-- The bytes handed to the tokenizer by a sequence of calls, in the order fed. -/
def fedBytes (feeds : List LoaderCall) : CString := (feeds.map LoaderCall.chunk).flatten

/-- A feed made by the loop of `read_xmlfile`: not terminating, at most 1024
bytes. -/
def LoaderCall.isLoopFeed : LoaderCall → Bool
  | .xmlParseChunk ch false => decide (ch.length ≤ 1024)
  | _ => false

/-- Whether an event is a start-element or an end-element. -/
def SaxEvent.isElement : SaxEvent → Bool
  | .characters _ => false
  | _ => true

/-- The relation between `state`, `unknown_depth` and `prev_state`:
`unknown_depth` is at least 1 in the state Unknown and 0 in every other state,
and the saved state is not Unknown. -/
def depthInv (c : TParserCtx) : Bool :=
  (if c.state = .PARSER_STATE_UNKNOWN then decide (1 ≤ c.unknown_depth)
    else decide (c.unknown_depth = 0)) &&
    !decide (c.prev_state = .PARSER_STATE_UNKNOWN)

/-- One step of the check that `Nodeset_newNode` and `Nodeset_newNodeFinish`
calls alternate. The check state is `none` after a violation, `some none` when
every created node has been finalised, and `some (some h)` when `h` is the
node returned by a `Nodeset_newNode` call not yet followed by its
`Nodeset_newNodeFinish`. A `Nodeset_newNode` is accepted only when no node is
open; a `Nodeset_newNodeFinish` only for the open node. Other calls are
ignored. -/
def pairStep : Option (Option Nat) → Call → Option (Option Nat)
  | none, _ => none
  | some none, .Nodeset_newNode _ _ ret => some (some ret)
  | some (some _), .Nodeset_newNode _ _ _ => none
  | some none, .Nodeset_newNodeFinish _ => none
  | some (some h), .Nodeset_newNodeFinish node => if node = some h then some none else none
  | some s, _ => some s

/-- The check run over a call log from its beginning. -/
def pairScan (calls : List Call) : Option (Option Nat) := calls.foldl pairStep (some none)

/-- Whether the context is inside a node element as the machine sees it: the
state, or the state saved for the return from Unknown, is one of Node,
DisplayName, References, Reference, Description, Value. -/
def nodeGroup (c : TParserCtx) : Bool :=
  if c.state = .PARSER_STATE_UNKNOWN then needsNode c.prev_state else needsNode c.state

/-- The statuses the tokenizer reports when the given calls are replayed on it
from the state `t`, one per `xmlParseChunk` call and in call order; each feed
is made on the state the feed before it left. -/
def feedStatuses {τ : Type} (tok : Tokenizer τ) : τ → List LoaderCall → List Int
  | _, [] => []
  | t, .xmlParseChunk ch terminate :: rest =>
    (tok.xmlParseChunk t ch terminate).2.2 ::
      feedStatuses tok (tok.xmlParseChunk t ch terminate).1 rest
  | t, _ :: rest => feedStatuses tok t rest

/-- The events the tokenizer delivers when the given calls are replayed on it
from the state `t`, in delivery order. -/
def feedEvents {τ : Type} (tok : Tokenizer τ) : τ → List LoaderCall → List SaxEvent
  | _, [] => []
  | t, .xmlParseChunk ch terminate :: rest =>
    (tok.xmlParseChunk t ch terminate).2.1 ++
      feedEvents tok (tok.xmlParseChunk t ch terminate).1 rest
  | t, _ :: rest => feedEvents tok t rest

/-- A tokenizer for examples whose status depends on its state: the state is
the number of bytes received, and a non-terminating feed reports the status 5
once more than `limit` bytes have been received. It delivers no event. -/
def countingTokenizer (limit : Nat) : Tokenizer Nat where
  xmlCreatePushParserCtxt := fun chunk => chunk.length
  xmlParseChunk := fun t chunk terminate =>
    (t + chunk.length, [], if !terminate && decide (limit < t + chunk.length) then 5 else 0)

/-! ## Lemmas on the handlers -/

theorem run_cons (c : TParserCtx) (e : SaxEvent) (es : List SaxEvent) :
    run c (e :: es) = (dispatch c e).bind fun c1 => run c1 es := rfl

theorem run_append (c : TParserCtx) (xs ys : List SaxEvent) :
    run c (xs ++ ys) = (run c xs).bind fun c1 => run c1 ys := by
  induction xs generalizing c with
  | nil => simp [run]
  | cons e es ih =>
    simp only [List.cons_append, run]
    cases h : dispatch c e with
    | none => simp
    | some c1 => simp [ih]

theorem OnStartElementNs_unknown (c : TParserCtx) (name : String) (attrs : Attrs)
    (hs : c.state = .PARSER_STATE_UNKNOWN) :
    OnStartElementNs c name attrs =
      some { c with unknown_depth := c.unknown_depth + 1, onCharacters := none } := by
  simp [OnStartElementNs, startSwitch, hs]

theorem OnEndElementNs_unknown_deep (c : TParserCtx) (name : String)
    (hs : c.state = .PARSER_STATE_UNKNOWN) (hd : 2 ≤ c.unknown_depth) :
    OnEndElementNs c name =
      some { c with unknown_depth := c.unknown_depth - 1, onCharacters := none } := by
  have h0 : c.unknown_depth ≠ 0 := by omega
  have h1 : c.unknown_depth - 1 ≠ 0 := by omega
  simp [OnEndElementNs, endSwitch, hs, h0, h1]

theorem OnEndElementNs_unknown_last (c : TParserCtx) (name : String)
    (hs : c.state = .PARSER_STATE_UNKNOWN) (hd : c.unknown_depth = 1) :
    OnEndElementNs c name =
      some { c with unknown_depth := 0, state := c.prev_state, onCharacters := none } := by
  simp [OnEndElementNs, endSwitch, hs, hd]

/-- Inside an unknown subtree at depth at least one, a well-nested piece of a
document changes nothing but the accumulated text. -/
theorem run_unknown_forest (f : Forest) :
    ∀ c : TParserCtx, c.state = .PARSER_STATE_UNKNOWN → 1 ≤ c.unknown_depth →
      ∃ t, run c f.events = some { c with onCharacters := t } := by
  induction f with
  | nil => intro c _ _; exact ⟨c.onCharacters, by simp [Forest.events, run]⟩
  | text ch rest ih =>
    intro c hs hd
    obtain ⟨t, ht⟩ := ih (OnCharacters c ch) (by simpa [OnCharacters] using hs)
      (by simpa [OnCharacters] using hd)
    exact ⟨t, by simpa [Forest.events, run, dispatch, OnCharacters] using ht⟩
  | elem name attrs children rest ihc ihr =>
    intro c hs hd
    have hstart := OnStartElementNs_unknown c name attrs hs
    obtain ⟨t1, h1⟩ := ihc { c with unknown_depth := c.unknown_depth + 1, onCharacters := none }
      (by simpa using hs) (by simp)
    have hend : OnEndElementNs
        { c with unknown_depth := c.unknown_depth + 1, onCharacters := t1 } name =
        some { c with onCharacters := none } := by
      rw [OnEndElementNs_unknown_deep _ name (by simpa using hs) (by simp; omega)]
      simp
    obtain ⟨t2, h2⟩ := ihr { c with onCharacters := none } (by simpa using hs) (by simpa using hd)
    refine ⟨t2, ?_⟩
    simp only [Forest.events, run, dispatch, hstart, Option.some_bind, run_append]
    simp only [h1, Option.some_bind, run, dispatch]
    simpa [hend] using h2

theorem OnStartElementNs_unrecognised (c : TParserCtx) (name : String) (attrs : Attrs)
    (hU : c.state ≠ .PARSER_STATE_UNKNOWN) (hV : c.state ≠ .PARSER_STATE_VALUE)
    (hn : recognised c.state name = false) :
    OnStartElementNs c name attrs =
      some { enterUnknownState c with onCharacters := none } := by
  unfold OnStartElementNs startSwitch
  cases hs : c.state <;> simp_all [recognised, strEqual]

/-! ## Skipping unknown content -/

theorem run_skip_element (c : TParserCtx) (name : String) (attrs : Attrs)
    (children : Forest)
    (hU : c.state ≠ .PARSER_STATE_UNKNOWN) (hV : c.state ≠ .PARSER_STATE_VALUE)
    (hn : recognised c.state name = false) :
    run c (Forest.events (.elem name attrs children .nil)) =
      some { c with prev_state := c.state, unknown_depth := 0, onCharacters := none } := by
  obtain ⟨t, ht⟩ := run_unknown_forest children
    { enterUnknownState c with onCharacters := none } (by simp [enterUnknownState])
    (by simp [enterUnknownState])
  simp only [Forest.events, run, dispatch, OnStartElementNs_unrecognised c name attrs hU hV hn,
    Option.some_bind, run_append, ht]
  rw [OnEndElementNs_unknown_last _ name (by simp [enterUnknownState])
    (by simp [enterUnknownState])]
  simp [enterUnknownState]

/-- C1: in a state other than Unknown and Value, the events of one complete
element whose name has no branch in that state, with arbitrary well-nested
content, lead back to the same state with `unknown_depth` 0; the call log of
the graph and the decoder, the current node, alias and reference are unchanged
(only `prev_state`, `unknown_depth` and the accumulated text are written). -/
theorem skip_unknown_element (c : TParserCtx) (name : String) (attrs : Attrs)
    (children : Forest)
    (hU : c.state ≠ .PARSER_STATE_UNKNOWN) (hV : c.state ≠ .PARSER_STATE_VALUE)
    (hn : recognised c.state name = false) :
    run c (Forest.events (.elem name attrs children .nil)) =
      some { c with prev_state := c.state, unknown_depth := 0, onCharacters := none } := by
  have hstart := OnStartElementNs_unrecognised c name attrs hU hV hn
  obtain ⟨t, ht⟩ := run_unknown_forest children
    { enterUnknownState c with onCharacters := none } (by simp [enterUnknownState])
    (by simp [enterUnknownState])
  have hend := OnEndElementNs_unknown_last
    { enterUnknownState c with onCharacters := t } name (by simp [enterUnknownState])
    (by simp [enterUnknownState])
  rw [Forest.events, run_cons]
  simp only [dispatch, hstart, Option.some_bind]
  rw [run_append, ht, Option.some_bind, run_cons]
  simp only [dispatch]
  rw [hend]
  simp [Forest.events, run, enterUnknownState]

theorem skip_unknown_element_witness :
    run { initialCtx 7 none with state := .PARSER_STATE_DISPLAYNAME, node := some 3 }
        (Forest.events (.elem "UAObject" [] (.text [104] (.elem "Value" [] .nil .nil)) .nil)) =
      some { initialCtx 7 none with
        state := .PARSER_STATE_DISPLAYNAME, node := some 3,
        prev_state := .PARSER_STATE_DISPLAYNAME, unknown_depth := 0, onCharacters := none } :=
  skip_unknown_element
    { initialCtx 7 none with state := .PARSER_STATE_DISPLAYNAME, node := some 3 }
    "UAObject" [] (.text [104] (.elem "Value" [] .nil .nil))
    (by decide) (by decide) (by decide)

/-! ## Character data -/

theorem take_strlen (s : CString) (hz : ∀ b ∈ s, b ≠ 0) : s.take (strlen s) = s := by
  have h : s.takeWhile (fun b => decide (b ≠ 0)) = s :=
    List.takeWhile_eq_self_iff.mpr (by simpa using hz)
  unfold strlen
  rw [h, List.take_length]

/-- Fragments are handled by `OnCharacters` one after the other. -/
theorem run_characters (fs : List CString) (rest : List SaxEvent) :
    ∀ c : TParserCtx, run c (fs.map .characters ++ rest) =
      run { c with onCharacters := accumulate c.onCharacters fs } rest := by
  induction fs with
  | nil => intro c; simp [accumulate]
  | cons f fs ih =>
    intro c
    rw [List.map_cons, List.cons_append, run_cons]
    simp only [dispatch, Option.some_bind]
    rw [ih]
    simp [OnCharacters, accumulate]

theorem accumulate_some (fs : List CString) :
    ∀ s : CString, (∀ b ∈ s, b ≠ 0) → (∀ b ∈ fs.flatten, b ≠ 0) →
      accumulate (some s) fs = some (s ++ fs.flatten) := by
  induction fs with
  | nil => intro s _ _; simp [accumulate]
  | cons f fs ih =>
    intro s hs hz
    have hz1 : ∀ b ∈ f, b ≠ 0 := fun b hb => hz b (by simp [hb])
    have hz2 : ∀ b ∈ fs.flatten, b ≠ 0 := fun b hb => hz b (by
      simp only [List.flatten_cons, List.mem_append]; exact Or.inr hb)
    have hsf : ∀ b ∈ s ++ f, b ≠ 0 := by
      intro b hb
      rcases List.mem_append.mp hb with h | h
      · exact hs b h
      · exact hz1 b h
    have hstep : accumulate (some s) (f :: fs) = accumulate (some (s ++ f)) fs := by
      simp [accumulate, appendChars, take_strlen s hs]
    rw [hstep, ih _ hsf hz2]
    simp [List.append_assoc]

/-- Fragments without zero byte delivered onto an empty accumulator leave their
concatenation. -/
theorem accumulate_none (fs : List CString) (hfs : fs ≠ [])
    (hz : ∀ b ∈ fs.flatten, b ≠ 0) : accumulate none fs = some fs.flatten := by
  cases fs with
  | nil => exact absurd rfl hfs
  | cons f fs =>
    have hz1 : ∀ b ∈ f, b ≠ 0 := fun b hb => hz b (by simp [hb])
    have hz2 : ∀ b ∈ fs.flatten, b ≠ 0 := fun b hb => hz b (by
      simp only [List.flatten_cons, List.mem_append]; exact Or.inr hb)
    have hstep : accumulate none (f :: fs) = accumulate (some f) fs := by
      simp [accumulate, appendChars]
    rw [hstep, accumulate_some fs f hz1 hz2]
    simp

theorem displayName_record_store (ns : Nodeset) (n : Nat) (t : Option CString) :
    (ns.record (.store_displayName n t)).displayName n = t := by
  simp [Nodeset.displayName, Nodeset.record, List.foldl_append]

/-- C2: between a `DisplayName` start-element and its end-element, a text
without zero byte delivered in any non-empty sequence of fragments leaves the
same context as the whole text delivered in one `OnCharacters` call, and the
node's display name is the concatenation of the fragments in delivery order. -/
theorem displayName_fragments (c : TParserCtx) (n : Nat) (attrs : Attrs)
    (fs : List CString)
    (hs : c.state = .PARSER_STATE_NODE) (hn : c.node = some n)
    (hfs : fs ≠ []) (hz : ∀ b ∈ fs.flatten, b ≠ 0) :
    run c (displayNameEvents attrs fs) = run c (displayNameEvents attrs [fs.flatten]) ∧
    ∃ c1, run c (displayNameEvents attrs fs) = some c1 ∧
      c1.state = .PARSER_STATE_NODE ∧ c1.node = some n ∧
      c1.nodeset = c.nodeset.record (.store_displayName n (some fs.flatten)) ∧
      c1.nodeset.displayName n = some fs.flatten := by
  have hstart : OnStartElementNs c DISPLAYNAME attrs =
      some { c with state := .PARSER_STATE_DISPLAYNAME, onCharacters := none } := by
    simp [OnStartElementNs, startSwitch, hs, strEqual]
  have hmulti : run c (displayNameEvents attrs fs) =
      some { c with
        state := .PARSER_STATE_NODE
        onCharacters := none
        nodeset := c.nodeset.record (.store_displayName n (some fs.flatten)) } := by
    rw [displayNameEvents, run_cons]
    simp only [dispatch, hstart, Option.some_bind]
    rw [run_characters fs _ _]
    simp [run, dispatch, OnEndElementNs, endSwitch, hn, accumulate_none fs hfs hz]
  have hsingle : run c (displayNameEvents attrs [fs.flatten]) =
      some { c with
        state := .PARSER_STATE_NODE
        onCharacters := none
        nodeset := c.nodeset.record (.store_displayName n (some fs.flatten)) } := by
    simp [displayNameEvents, run, dispatch, hstart, OnCharacters, appendChars, OnEndElementNs,
      endSwitch, hn]
  refine ⟨by rw [hmulti, hsingle], _, hmulti, rfl, hn, rfl, ?_⟩
  exact displayName_record_store _ _ _

theorem displayName_fragments_witness :
    run (startNode (initialCtx 0 none) .NODECLASS_OBJECT [])
        (displayNameEvents [] [[78, 97], [109], [101, 33]]) =
      run (startNode (initialCtx 0 none) .NODECLASS_OBJECT [])
        (displayNameEvents [] [[78, 97, 109, 101, 33]]) ∧
    ∃ c1, run (startNode (initialCtx 0 none) .NODECLASS_OBJECT [])
        (displayNameEvents [] [[78, 97], [109], [101, 33]]) = some c1 ∧
      c1.state = .PARSER_STATE_NODE ∧ c1.node = some 0 ∧
      c1.nodeset = (startNode (initialCtx 0 none) .NODECLASS_OBJECT []).nodeset.record
        (.store_displayName 0 (some [78, 97, 109, 101, 33])) ∧
      c1.nodeset.displayName 0 = some [78, 97, 109, 101, 33] :=
  displayName_fragments (startNode (initialCtx 0 none) .NODECLASS_OBJECT []) 0 []
    [[78, 97], [109], [101, 33]] (by decide) (by decide) (by decide) (by simp)

/-! ## A display name with nested elements -/

/-- Inside `DisplayName` every nested element is skipped, and each skip empties
the accumulator: what is left at the end is the text after the last one. -/
theorem run_displayName_content (content : Forest) (rest : List SaxEvent) :
    ∀ c : TParserCtx, c.state = .PARSER_STATE_DISPLAYNAME →
      run c (content.events ++ rest) =
        run (if content.hasElem then
            { c with
              prev_state := .PARSER_STATE_DISPLAYNAME
              unknown_depth := 0
              onCharacters := accumulate none content.trailing }
          else { c with onCharacters := accumulate c.onCharacters content.trailing }) rest := by
  induction content with
  | nil => intro c _; simp [Forest.events, Forest.hasElem, Forest.trailing, accumulate]
  | text ch more ih =>
    intro c hs
    rw [Forest.events, List.cons_append, run_cons]
    simp only [dispatch, Option.some_bind]
    rw [ih (OnCharacters c ch) (by simpa [OnCharacters] using hs)]
    by_cases h : more.hasElem = true
    · simp [Forest.hasElem, Forest.trailing, h, OnCharacters]
    · simp [Forest.hasElem, Forest.trailing, h, OnCharacters, accumulate]
  | elem name attrs children more _ ih =>
    intro c hs
    have hskip := run_skip_element c name attrs children (by simp [hs]) (by simp [hs])
      (by simp [hs, recognised])
    have hsplit : (Forest.elem name attrs children more).events ++ rest =
        (Forest.elem name attrs children .nil).events ++ (more.events ++ rest) := by
      simp [Forest.events]
    rw [hsplit, run_append, hskip, Option.some_bind, ih _ (by simpa using hs)]
    by_cases h : more.hasElem = true
    · simp [Forest.hasElem, Forest.trailing, h]
    · simp [Forest.hasElem, Forest.trailing, h, hs]

theorem forgetSaved_idem (c : TParserCtx) : forgetSaved (forgetSaved c) = forgetSaved c := by
  unfold forgetSaved
  by_cases h : c.state = .PARSER_STATE_UNKNOWN <;> simp [h]

theorem map_ite_some {α β : Type} (f : α → β) (p : Prop) [Decidable p] (a b : Option α) :
    Option.map f (if p then a else b) = if p then Option.map f a else Option.map f b := by
  split_ifs <;> rfl

theorem forgetSaved_of_ne (c : TParserCtx) (h : c.state ≠ .PARSER_STATE_UNKNOWN) :
    forgetSaved c = { c with prev_state := .PARSER_STATE_INIT, unknown_depth := 0 } := by
  simp [forgetSaved, h]

/-- Outside the state Unknown a handler reads neither `prev_state` nor
`unknown_depth`. -/
theorem dispatch_saved_fields (st ps : TParserState) (ud : Nat) (nc : Option TNodeClass)
    (nd al : Option Nat) (oc : Option CString) (uc : Nat) (vl : Option Nat)
    (vi : Option ValueInterface) (rf : Option Nat) (ns : Nodeset) (e : SaxEvent)
    (hU : st ≠ .PARSER_STATE_UNKNOWN) :
    (dispatch ⟨st, .PARSER_STATE_INIT, 0, nc, nd, al, oc, uc, vl, vi, rf, ns⟩ e).map forgetSaved =
      (dispatch ⟨st, ps, ud, nc, nd, al, oc, uc, vl, vi, rf, ns⟩ e).map forgetSaved := by
  cases e with
  | characters ch =>
    simp [dispatch, OnCharacters, forgetSaved, hU]
  | startElementNs name attrs =>
    cases st
    case PARSER_STATE_UNKNOWN => exact absurd rfl hU
    all_goals cases vi
    all_goals simp only [dispatch, OnStartElementNs, startSwitch, map_ite_some]
    all_goals rfl
  | endElementNs name =>
    cases st
    case PARSER_STATE_UNKNOWN => exact absurd rfl hU
    all_goals cases vi <;> cases nd
    all_goals simp only [dispatch, OnEndElementNs, endSwitch, map_ite_some]
    all_goals rfl

theorem dispatch_forgetSaved (c : TParserCtx) (e : SaxEvent) :
    (dispatch (forgetSaved c) e).map forgetSaved = (dispatch c e).map forgetSaved := by
  by_cases hU : c.state = .PARSER_STATE_UNKNOWN
  · simp [forgetSaved, hU]
  · rw [forgetSaved_of_ne c hU]
    obtain ⟨st, ps, ud, nc, nd, al, oc, uc, vl, vi, rf, ns⟩ := c
    exact dispatch_saved_fields st ps ud nc nd al oc uc vl vi rf ns e hU

theorem run_forgetSaved (es : List SaxEvent) :
    ∀ c : TParserCtx, (run (forgetSaved c) es).map forgetSaved = (run c es).map forgetSaved := by
  induction es with
  | nil => intro c; simp [run, forgetSaved_idem]
  | cons e es ih =>
    intro c
    have hd := dispatch_forgetSaved c e
    rw [run_cons, run_cons]
    cases h1 : dispatch (forgetSaved c) e with
    | none =>
      cases h2 : dispatch c e with
      | none => simp
      | some b => simp [h1, h2] at hd
    | some a =>
      cases h2 : dispatch c e with
      | none => simp [h1, h2] at hd
      | some b =>
        simp only [h1, h2, Option.map_some', Option.some.injEq] at hd
        simp only [Option.some_bind]
        rw [← ih a, ← ih b, hd]

/-- Two contexts that agree up to the saved fields are handled alike. -/
theorem run_congr_forgetSaved (c1 c2 : TParserCtx) (es : List SaxEvent)
    (h : forgetSaved c1 = forgetSaved c2) :
    (run c1 es).map forgetSaved = (run c2 es).map forgetSaved := by
  rw [← run_forgetSaved es c1, ← run_forgetSaved es c2, h]

/-- The context after a `DisplayName` element with arbitrary content, entered
in the state Node. -/
theorem run_displayNameElement (c : TParserCtx) (n : Nat) (attrs : Attrs) (content : Forest)
    (hs : c.state = .PARSER_STATE_NODE) (hn : c.node = some n) :
    run c (displayNameElement attrs content) =
      some (if content.hasElem then
          { c with
            prev_state := .PARSER_STATE_DISPLAYNAME
            unknown_depth := 0
            onCharacters := none
            nodeset := c.nodeset.record
              (.store_displayName n (accumulate none content.trailing)) }
        else
          { c with
            onCharacters := none
            nodeset := c.nodeset.record
              (.store_displayName n (accumulate none content.trailing)) }) := by
  have hstart : OnStartElementNs c DISPLAYNAME attrs =
      some { c with state := .PARSER_STATE_DISPLAYNAME, onCharacters := none } := by
    simp [OnStartElementNs, startSwitch, hs, strEqual]
  rw [displayNameElement, run_cons]
  simp only [dispatch, hstart, Option.some_bind]
  rw [run_displayName_content content _ _ rfl]
  by_cases h : content.hasElem = true
  · simp [h, run, dispatch, OnEndElementNs, endSwitch, hn, hs]
  · simp [h, run, dispatch, OnEndElementNs, endSwitch, hn, hs]

/-- The context after a `DisplayName` element holding character data only. -/
theorem run_displayNameEvents (c : TParserCtx) (n : Nat) (attrs : Attrs) (fs : List CString)
    (hs : c.state = .PARSER_STATE_NODE) (hn : c.node = some n) :
    run c (displayNameEvents attrs fs) =
      some { c with
        onCharacters := none
        nodeset := c.nodeset.record (.store_displayName n (accumulate none fs)) } := by
  have hstart : OnStartElementNs c DISPLAYNAME attrs =
      some { c with state := .PARSER_STATE_DISPLAYNAME, onCharacters := none } := by
    simp [OnStartElementNs, startSwitch, hs, strEqual]
  rw [displayNameEvents, run_cons]
  simp only [dispatch, hstart, Option.some_bind]
  rw [run_characters fs _ _]
  simp [run, dispatch, OnEndElementNs, endSwitch, hn, hs]

/-- C3, as the code has it: when the content of a `DisplayName` element holds
a nested element (of any name, content and depth), the display name stored at
the end-element is the character data delivered directly inside `DisplayName`
after the end of its last nested element, and null when there is none; the
text before a nested element is dropped. The state is Node again, and the
events that follow are handled as if `DisplayName` had held that trailing text
only (the contexts differ in the saved fields alone). -/
theorem displayName_nested_unknown (c : TParserCtx) (n : Nat) (attrs : Attrs)
    (content : Forest) (rest : List SaxEvent)
    (hs : c.state = .PARSER_STATE_NODE) (hn : c.node = some n)
    (he : content.hasElem = true) :
    (∃ c1, run c (displayNameElement attrs content) = some c1 ∧
      c1.state = .PARSER_STATE_NODE ∧ c1.node = some n ∧
      c1.nodeset = c.nodeset.record
        (.store_displayName n (accumulate none content.trailing)) ∧
      c1.nodeset.displayName n = accumulate none content.trailing) ∧
    (content.trailing = [] → accumulate none content.trailing = none) ∧
    (content.trailing ≠ [] → (∀ b ∈ content.trailing.flatten, b ≠ 0) →
      accumulate none content.trailing = some content.trailing.flatten) ∧
    (run c (displayNameElement attrs content ++ rest)).map forgetSaved =
      (run c (displayNameEvents attrs content.trailing ++ rest)).map forgetSaved := by
  have h1 := run_displayNameElement c n attrs content hs hn
  have h2 := run_displayNameEvents c n attrs content.trailing hs hn
  simp only [he, if_true] at h1
  refine ⟨⟨_, h1, hs, hn, rfl, displayName_record_store _ _ _⟩, ?_, ?_, ?_⟩
  · intro h
    simp [h, accumulate]
  · intro h hz
    exact accumulate_none _ h hz
  · rw [run_append, run_append, h1, h2, Option.some_bind, Option.some_bind]
    apply run_congr_forgetSaved
    simp [forgetSaved, hs]

theorem displayName_nested_unknown_witness :
    (∃ c1, run (startNode (initialCtx 0 none) .NODECLASS_OBJECT [])
        (displayNameElement []
          (.text [97, 98] (.elem "Extra" [] (.text [120] .nil) (.text [99, 100] .nil)))) =
        some c1 ∧
      c1.state = .PARSER_STATE_NODE ∧ c1.node = some 0 ∧
      c1.nodeset = (startNode (initialCtx 0 none) .NODECLASS_OBJECT []).nodeset.record
        (.store_displayName 0 (accumulate none (Forest.trailing
          (.text [97, 98] (.elem "Extra" [] (.text [120] .nil) (.text [99, 100] .nil)))))) ∧
      c1.nodeset.displayName 0 = accumulate none (Forest.trailing
          (.text [97, 98] (.elem "Extra" [] (.text [120] .nil) (.text [99, 100] .nil))))) ∧
    (Forest.trailing
        (.text [97, 98] (.elem "Extra" [] (.text [120] .nil) (.text [99, 100] .nil))) = [] →
      accumulate none (Forest.trailing
        (.text [97, 98] (.elem "Extra" [] (.text [120] .nil) (.text [99, 100] .nil)))) = none) ∧
    (Forest.trailing
        (.text [97, 98] (.elem "Extra" [] (.text [120] .nil) (.text [99, 100] .nil))) ≠ [] →
      (∀ b ∈ (Forest.trailing
        (.text [97, 98] (.elem "Extra" [] (.text [120] .nil) (.text [99, 100] .nil)))).flatten,
          b ≠ 0) →
      accumulate none (Forest.trailing
        (.text [97, 98] (.elem "Extra" [] (.text [120] .nil) (.text [99, 100] .nil)))) =
        some (Forest.trailing
          (.text [97, 98] (.elem "Extra" [] (.text [120] .nil) (.text [99, 100] .nil)))).flatten) ∧
    (run (startNode (initialCtx 0 none) .NODECLASS_OBJECT [])
        (displayNameElement []
          (.text [97, 98] (.elem "Extra" [] (.text [120] .nil) (.text [99, 100] .nil))) ++
          [.endElementNs "UAObject"])).map forgetSaved =
      (run (startNode (initialCtx 0 none) .NODECLASS_OBJECT [])
        (displayNameEvents [] (Forest.trailing
          (.text [97, 98] (.elem "Extra" [] (.text [120] .nil) (.text [99, 100] .nil)))) ++
          [.endElementNs "UAObject"])).map forgetSaved :=
  displayName_nested_unknown (startNode (initialCtx 0 none) .NODECLASS_OBJECT []) 0 []
    (.text [97, 98] (.elem "Extra" [] (.text [120] .nil) (.text [99, 100] .nil)))
    [.endElementNs "UAObject"] (by decide) (by decide) (by decide)

/-- C3 as stated fails: with the content `ab<Extra>x</Extra>cd` the text that
belongs directly to `DisplayName` is `abcd`, and the display name stored by the
code is `cd`. -/
theorem displayName_nested_counterexample :
    (run (startNode (initialCtx 0 none) .NODECLASS_OBJECT [])
        (displayNameElement []
          (.text [97, 98] (.elem "Extra" [] (.text [120] .nil) (.text [99, 100] .nil))))).map
        (fun c1 => c1.nodeset.displayName 0) = some (some [99, 100]) ∧
    Forest.ownText
        (.text [97, 98] (.elem "Extra" [] (.text [120] .nil) (.text [99, 100] .nil))) =
      [97, 98, 99, 100] ∧
    (run (startNode (initialCtx 0 none) .NODECLASS_OBJECT [])
        (displayNameElement []
          (.text [97, 98] (.elem "Extra" [] (.text [120] .nil) (.text [99, 100] .nil))))).map
        (fun c1 => c1.nodeset.displayName 0) ≠
      some (some (Forest.ownText
        (.text [97, 98] (.elem "Extra" [] (.text [120] .nil) (.text [99, 100] .nil))))) := by
  decide

/-! ## The value subtree -/

/-- C4 fails on a `Value` element nested inside the `Value` container: the
nested end-element already finishes the decoder and attaches the value, the
state is Node while the container is still open, and the container's own
end-element is then taken for the end of the node. -/
theorem value_nested_value_leaves_early :
    (run (initialCtx 0 (some ⟨0⟩))
        [.startElementNs "UAVariable" [], .startElementNs "Value" [],
          .startElementNs "Value" [], .endElementNs "Value"]).map
        (fun c => (c.state, c.nodeset.calls)) =
      some (.PARSER_STATE_NODE,
        [.Nodeset_newNode .NODECLASS_VARIABLE [] 0, .valIf_newValue (some 0) 1,
          .valIf_start (some 1) "Value", .valIf_finish (some 1), .store_value 0 (some 1)]) ∧
    (run (initialCtx 0 (some ⟨0⟩))
        (Forest.events (.elem "UAVariable" []
          (.elem "Value" [] (.elem "Value" [] .nil .nil) .nil) .nil))).map
        (fun c => (c.state, c.nodeset.calls)) =
      some (.PARSER_STATE_INIT,
        [.Nodeset_newNode .NODECLASS_VARIABLE [] 0, .valIf_newValue (some 0) 1,
          .valIf_start (some 1) "Value", .valIf_finish (some 1), .store_value 0 (some 1),
          .Nodeset_newNodeFinish (some 0)]) := by
  decide

/-! ## The entry point -/

/-- The checks `loadFile` makes: a missing file handler, namespace-remap
callback or sink callback makes it return false with no collaborator called. -/
theorem loadFile_missing_callback {τ : Type} (w : World τ) (fh : FileHandler)
    (h : fh.addNamespace = none ∨ fh.callback = none) :
    loadFile w (some fh) = some ⟨false, []⟩ ∧ loadFile w none = some ⟨false, []⟩ := by
  refine ⟨?_, rfl⟩
  rcases h with h | h
  · simp [loadFile, h]
  · cases ha : fh.addNamespace <;> simp [loadFile, h, ha]

/-- C6 fails for the value-decoder interface: with `valueHandling` missing and
the two callbacks present, `loadFile` on a file holding `<UAObject/>` creates
the graph, opens the file, feeds the tokenizer, runs the sorter and returns
true; and when the document has a `Value` element the null interface is
dereferenced. -/
theorem loadFile_missing_valueHandling :
    loadFile (sampleWorld [60, 85, 65, 79, 98, 106, 101, 99, 116, 47, 62]
        [.startElementNs "UAObject" [], .endElementNs "UAObject"] 0 [] 0)
        (some ⟨"nodeset.xml", some 1, some 2, none, 0⟩) =
      some ⟨true,
        [.Nodeset_new 1, .fopen "nodeset.xml", .xmlCreatePushParserCtxt [60, 85, 65, 79],
          .xmlParseChunk [98, 106, 101, 99, 116, 47, 62] false, .xmlParseChunk [] true,
          .Nodeset_getSortedNodes
            ⟨[.Nodeset_newNode .NODECLASS_OBJECT [] 0, .Nodeset_newNodeFinish (some 0)]⟩ 0 2 none,
          .Nodeset_cleanup, .fclose]⟩ ∧
    loadFile (sampleWorld [60, 85, 65, 79, 98, 106, 101, 99, 116, 47, 62]
        [.startElementNs "UAVariable" [], .startElementNs "Value" []] 0 [] 0)
        (some ⟨"nodeset.xml", some 1, some 2, none, 0⟩) = none := by
  decide

/-- Whenever `read_xmlfile` reports an error, `loadFile` returns false and has
called the sorter on the graph built so far. -/
theorem loadFile_after_read_error {τ : Type} (w : World τ) (fh : FileHandler)
    (addNamespace callback : Nat) (f : CString) (r : ReadResult)
    (ha : fh.addNamespace = some addNamespace) (hc : fh.callback = some callback)
    (hf : w.fopen fh.file = some f)
    (hr : read_xmlfile w.tokenizer f (initialCtx fh.userContext fh.valueHandling) = some r)
    (hret : r.ret ≠ 0) :
    loadFile w (some fh) = some ⟨false,
      [.Nodeset_new addNamespace, .fopen fh.file] ++ r.feeds ++
        [.Nodeset_getSortedNodes r.ctx.nodeset fh.userContext callback r.ctx.valIf,
          .Nodeset_cleanup, .fclose]⟩ := by
  simp [loadFile, ha, hc, hf, hr, hret]

/-- C7 fails: when a feed reports malformed input (here after the events of
`<UAObject/>`), `loadFile` returns false but still runs the sorter, with the
sink callback, on the graph built so far. -/
theorem loadFile_read_error_runs_sorter :
    loadFile (sampleWorld [60, 85, 65, 79, 98, 106, 101, 99, 116, 47, 62, 60]
        [.startElementNs "UAObject" [], .endElementNs "UAObject"] 68 [] 0)
        (some ⟨"nodeset.xml", some 1, some 2, some ⟨0⟩, 0⟩) =
      some ⟨false,
        [.Nodeset_new 1, .fopen "nodeset.xml", .xmlCreatePushParserCtxt [60, 85, 65, 79],
          .xmlParseChunk [98, 106, 101, 99, 116, 47, 62, 60] false,
          .Nodeset_getSortedNodes
            ⟨[.Nodeset_newNode .NODECLASS_OBJECT [] 0, .Nodeset_newNodeFinish (some 0)]⟩ 0 2
            (some ⟨0⟩),
          .Nodeset_cleanup, .fclose]⟩ := by
  decide

/-- The terminating feed never makes `read_xmlfile` fail, whatever status the
tokenizer reports for it. -/
theorem finalFeed_ret {τ : Type} (tok : Tokenizer τ) (t : τ) (c : TParserCtx)
    (feeds : List LoaderCall) (r : ReadResult) (h : finalFeed tok t c feeds = some r) :
    r.ret = 0 := by
  unfold finalFeed at h
  cases hrun : run c (tok.xmlParseChunk t [] true).2.1 with
  | none => simp [hrun] at h
  | some c1 =>
    simp only [hrun, Option.some.injEq] at h
    rw [← h]

/-- C8 fails: the status of the terminating feed is dropped, so a document
whose malformedness is only reported there (here `<UAObject>`, never closed) is
read without error and `loadFile` returns true. -/
theorem read_xmlfile_ignores_final_status :
    (read_xmlfile (sampleTokenizer [.startElementNs "UAObject" []] 0 [] 77)
        [60, 85, 65, 79, 98, 106, 101, 99, 116, 62] (initialCtx 0 (some ⟨0⟩))).map (fun r => (r.ret, r.feeds)) =
      some (0, [.xmlCreatePushParserCtxt [60, 85, 65, 79], .xmlParseChunk [98, 106, 101, 99, 116, 62] false,
        .xmlParseChunk [] true]) ∧
    (loadFile (sampleWorld [60, 85, 65, 79, 98, 106, 101, 99, 116, 62] [.startElementNs "UAObject" []] 0 [] 77)
        (some ⟨"nodeset.xml", some 1, some 2, some ⟨0⟩, 0⟩)).map (fun r => r.status) =
      some true := by
  decide

/-! ## Text reset -/

theorem OnStartElementNs_text (c c1 : TParserCtx) (name : String) (attrs : Attrs)
    (h : OnStartElementNs c name attrs = some c1) : c1.onCharacters = none := by
  unfold OnStartElementNs at h
  cases hsw : startSwitch c name attrs with
  | none => simp [hsw] at h
  | some c2 =>
    simp only [hsw, Option.map_some', Option.some.injEq] at h
    rw [← h]

theorem isSome_ite {α : Type} (p : Prop) [Decidable p] (a b : Option α) :
    (if p then a else b).isSome = if p then a.isSome else b.isSome := by
  split_ifs <;> rfl

theorem startSwitch_returns (c : TParserCtx) (name : String) (attrs : Attrs)
    (hv : c.valIf ≠ none) : ∃ c1, startSwitch c name attrs = some c1 := by
  apply Option.isSome_iff_exists.mp
  obtain ⟨st, ps, ud, nc, nd, al, oc, uc, vl, vi, rf, ns⟩ := c
  cases vi with
  | none => exact absurd rfl hv
  | some v =>
    cases st
    all_goals simp only [startSwitch, isSome_ite, Option.isSome_some, ite_self]

/-- C10: in every context (any state, any pending text) `OnStartElementNs`
leaves the accumulated text empty whenever it returns, and it returns whenever
the decoder interface is present; hence the text held after a start-element
and the fragments that follow it is made of those fragments alone, whatever
was pending before. -/
theorem start_element_resets_text (c : TParserCtx) (name : String) (attrs : Attrs)
    (fs : List CString) (rest : List SaxEvent) :
    (∀ c1, OnStartElementNs c name attrs = some c1 → c1.onCharacters = none) ∧
    (c.valIf ≠ none → ∃ c1, OnStartElementNs c name attrs = some c1) ∧
    (∀ c1, OnStartElementNs c name attrs = some c1 →
      run c (.startElementNs name attrs :: (fs.map .characters ++ rest)) =
        run { c1 with onCharacters := accumulate none fs } rest) := by
  refine ⟨fun c1 h => OnStartElementNs_text c c1 name attrs h, ?_, ?_⟩
  · intro hv
    obtain ⟨c1, h1⟩ := startSwitch_returns c name attrs hv
    exact ⟨{ c1 with onCharacters := none }, by simp [OnStartElementNs, h1]⟩
  · intro c1 h
    rw [run_cons]
    simp only [dispatch, h, Option.some_bind]
    rw [run_characters fs rest c1, OnStartElementNs_text c c1 name attrs h]

/-! ## Absence of null dereferences -/

theorem ite_eq_both {α : Type} (p : Prop) [Decidable p] (a b x : α) (ha : a = x) (hb : b = x) :
    (if p then a else b) = x := by
  split_ifs
  · exact ha
  · exact hb

theorem dispatch_safe_fields (st ps : TParserState) (ud : Nat) (nc : Option TNodeClass)
    (nd al : Option Nat) (oc : Option CString) (uc : Nat) (vl : Option Nat)
    (vi : Option ValueInterface) (rf : Option Nat) (ns : Nodeset) (e : SaxEvent)
    (h : safeCtx ⟨st, ps, ud, nc, nd, al, oc, uc, vl, vi, rf, ns⟩ = true) :
    (dispatch ⟨st, ps, ud, nc, nd, al, oc, uc, vl, vi, rf, ns⟩ e).map safeCtx = some true := by
  cases vi with
  | none => exact absurd h (by simp [safeCtx])
  | some v =>
    cases nd with
    | some n =>
      cases e with
      | characters ch => rfl
      | startElementNs name attrs =>
        cases st
        all_goals simp only [dispatch, OnStartElementNs, startSwitch, map_ite_some]
        all_goals repeat' (first | rfl | apply ite_eq_both)
      | endElementNs name =>
        cases st
        all_goals simp only [dispatch, OnEndElementNs, endSwitch, map_ite_some]
        all_goals repeat' (first | rfl | apply ite_eq_both)
    | none =>
      cases st
      case PARSER_STATE_UNKNOWN =>
        cases ps
        all_goals first | exact absurd h Bool.false_ne_true | skip
        all_goals cases e
        all_goals simp only [dispatch, OnStartElementNs, startSwitch, OnEndElementNs, endSwitch,
          OnCharacters, map_ite_some]
        all_goals repeat' (first | rfl | apply ite_eq_both)
      all_goals first | exact absurd h Bool.false_ne_true | skip
      all_goals cases e
      all_goals simp only [dispatch, OnStartElementNs, startSwitch, OnEndElementNs, endSwitch,
        OnCharacters, map_ite_some]
      all_goals repeat' (first | rfl | apply ite_eq_both)

/-- From a safe context every handler returns, in a safe context. -/
theorem dispatch_safe (c : TParserCtx) (e : SaxEvent) (h : safeCtx c = true) :
    ∃ c1, dispatch c e = some c1 ∧ safeCtx c1 = true := by
  obtain ⟨st, ps, ud, nc, nd, al, oc, uc, vl, vi, rf, ns⟩ := c
  have hd := dispatch_safe_fields st ps ud nc nd al oc uc vl vi rf ns e h
  cases hc : dispatch ⟨st, ps, ud, nc, nd, al, oc, uc, vl, vi, rf, ns⟩ e with
  | none => simp [hc] at hd
  | some c1 =>
    simp only [hc, Option.map_some', Option.some.injEq] at hd
    exact ⟨c1, rfl, hd⟩

theorem run_safe (es : List SaxEvent) :
    ∀ c : TParserCtx, safeCtx c = true → ∃ c1, run c es = some c1 ∧ safeCtx c1 = true := by
  induction es with
  | nil => intro c h; exact ⟨c, rfl, h⟩
  | cons e es ih =>
    intro c h
    obtain ⟨c1, h1, hs1⟩ := dispatch_safe c e h
    obtain ⟨c2, h2, hs2⟩ := ih c1 hs1
    exact ⟨c2, by rw [run_cons, h1, Option.some_bind, h2], hs2⟩

theorem finalFeed_returns {τ : Type} (tok : Tokenizer τ) (t : τ) (c : TParserCtx)
    (feeds : List LoaderCall) (h : safeCtx c = true) :
    ∃ r, finalFeed tok t c feeds = some r := by
  obtain ⟨c1, h1, _⟩ := run_safe (tok.xmlParseChunk t [] true).2.1 c h
  exact ⟨⟨0, c1, feeds ++ [.xmlParseChunk [] true]⟩, by simp [finalFeed, h1]⟩

theorem feedLoop_returns {τ : Type} (tok : Tokenizer τ) (fuel : Nat) :
    ∀ (t : τ) (c : TParserCtx) (rest : CString) (feeds : List LoaderCall),
      safeCtx c = true → ∃ r, feedLoop tok fuel t c rest feeds = some r := by
  induction fuel with
  | zero =>
    intro t c rest feeds h
    exact finalFeed_returns tok t c feeds h
  | succ fuel ih =>
    intro t c rest feeds h
    unfold feedLoop
    by_cases hlen : 0 < (rest.take 1024).length
    · obtain ⟨c1, h1, hs1⟩ := run_safe (tok.xmlParseChunk t (rest.take 1024) false).2.1 c h
      simp only [hlen, if_true, h1]
      by_cases herr : (tok.xmlParseChunk t (rest.take 1024) false).2.2 ≠ 0
      · exact ⟨⟨1, c1, feeds ++ [.xmlParseChunk (rest.take 1024) false]⟩, by simp [herr]⟩
      · obtain ⟨r, hr⟩ := ih (tok.xmlParseChunk t (rest.take 1024) false).1 c1
          (rest.drop 1024) (feeds ++ [.xmlParseChunk (rest.take 1024) false]) hs1
        exact ⟨r, by simp only [herr, if_false]; exact hr⟩
    · simp only [hlen, if_false]
      exact finalFeed_returns tok t c feeds h

/-- The fuel `read_xmlfile` gives the loop is enough: with at least as much
fuel as there are bytes left, the result does not depend on the fuel. -/
theorem feedLoop_fuel {τ : Type} (tok : Tokenizer τ) (fuel1 : Nat) :
    ∀ (fuel2 : Nat) (t : τ) (c : TParserCtx) (rest : CString) (feeds : List LoaderCall),
      rest.length ≤ fuel1 → rest.length ≤ fuel2 →
      feedLoop tok fuel1 t c rest feeds = feedLoop tok fuel2 t c rest feeds := by
  induction fuel1 with
  | zero =>
    intro fuel2 t c rest feeds h1 _
    have hrest : rest = [] := List.length_eq_zero.mp (Nat.le_zero.mp h1)
    subst hrest
    cases fuel2 with
    | zero => rfl
    | succ n => simp [feedLoop]
  | succ n ih =>
    intro fuel2 t c rest feeds h1 h2
    cases fuel2 with
    | zero =>
      have hrest : rest = [] := List.length_eq_zero.mp (Nat.le_zero.mp h2)
      subst hrest
      simp [feedLoop]
    | succ m =>
      unfold feedLoop
      by_cases hlen : 0 < (rest.take 1024).length
      · have hpos : 0 < rest.length := by
          rw [List.length_take] at hlen
          omega
        have hd1 : (rest.drop 1024).length ≤ n := by
          rw [List.length_drop]
          omega
        have hd2 : (rest.drop 1024).length ≤ m := by
          rw [List.length_drop]
          omega
        simp only [hlen, if_true]
        cases run c (tok.xmlParseChunk t (rest.take 1024) false).2.1 with
        | none => rfl
        | some c1 =>
          simp only
          rw [ih m _ c1 (rest.drop 1024) _ hd1 hd2]
      · simp only [hlen, if_false]

/-- With the decoder interface present, `read_xmlfile` returns on every file
and with every tokenizer. -/
theorem read_xmlfile_returns {τ : Type} (tok : Tokenizer τ) (f : CString) (c : TParserCtx)
    (h : safeCtx c = true) : ∃ r, read_xmlfile tok f c = some r := by
  unfold read_xmlfile
  by_cases hlen : (f.take 4).length ≤ 0
  · exact ⟨⟨1, c, []⟩, by simp only [hlen, if_true]⟩
  · simp only [hlen, if_false]
    exact feedLoop_returns tok _ _ c _ _ h

/-- C9: with the two callbacks and the decoder interface present, `loadFile`
returns, and its status is true exactly when the file opens, `read_xmlfile`
returns 0 and the sorter reports success; when the file does not open it
returns false after creating and cleaning up the graph only: no tokenizer
feed, no sorter call. -/
theorem loadFile_status {τ : Type} (w : World τ) (fh : FileHandler)
    (addNamespace callback : Nat) (vi : ValueInterface)
    (ha : fh.addNamespace = some addNamespace) (hc : fh.callback = some callback)
    (hv : fh.valueHandling = some vi) :
    ∃ out, loadFile w (some fh) = some out ∧
      (out.status = true ↔
        ∃ f r, w.fopen fh.file = some f ∧
          read_xmlfile w.tokenizer f (initialCtx fh.userContext fh.valueHandling) = some r ∧
          r.ret = 0 ∧
          w.Nodeset_getSortedNodes r.ctx.nodeset fh.userContext callback r.ctx.valIf = true) ∧
      (w.fopen fh.file = none →
        out = ⟨false, [.Nodeset_new addNamespace, .fopen fh.file, .Nodeset_cleanup]⟩) := by
  cases hf : w.fopen fh.file with
  | none =>
    refine ⟨⟨false, [.Nodeset_new addNamespace, .fopen fh.file, .Nodeset_cleanup]⟩, ?_, ?_, ?_⟩
    · simp [loadFile, ha, hc, hf]
    · simp
    · intro _; rfl
  | some f =>
    have hsafe : safeCtx (initialCtx fh.userContext fh.valueHandling) = true := by
      simp [safeCtx, initialCtx, hv, needsNode]
    obtain ⟨r, hr⟩ := read_xmlfile_returns w.tokenizer f _ hsafe
    have hload : loadFile w (some fh) = some
        ⟨if (!w.Nodeset_getSortedNodes r.ctx.nodeset fh.userContext callback r.ctx.valIf) = true
          then false else if r.ret ≠ 0 then false else true,
         [.Nodeset_new addNamespace, .fopen fh.file] ++ r.feeds ++
          [.Nodeset_getSortedNodes r.ctx.nodeset fh.userContext callback r.ctx.valIf,
            .Nodeset_cleanup, .fclose]⟩ := by
      simp only [loadFile, ha, hc, hf, hr]
    refine ⟨_, hload, ?_, ?_⟩
    · constructor
      · intro hst
        refine ⟨f, r, rfl, hr, ?_, ?_⟩
        · by_contra hne
          simp [hne] at hst
        · by_contra hne
          simp [hne] at hst
      · rintro ⟨f1, r1, hf1, hr1, hret, hsort⟩
        have hff : f1 = f := by simpa using hf1.symm
        subst hff
        have hrr : r1 = r := by simpa [hr] using hr1.symm
        subst hrr
        simp [hret, hsort]
    · intro h
      exact absurd h (by simp)

theorem loadFile_status_witness :
    ∃ out, loadFile (sampleWorld [60, 85, 65, 79, 98, 106, 101, 99, 116, 47, 62]
        [.startElementNs "UAObject" [], .endElementNs "UAObject"] 0 [] 0)
        (some ⟨"nodeset.xml", some 1, some 2, some ⟨0⟩, 0⟩) = some out ∧
      (out.status = true ↔
        ∃ f r, (sampleWorld [60, 85, 65, 79, 98, 106, 101, 99, 116, 47, 62]
            [.startElementNs "UAObject" [], .endElementNs "UAObject"] 0 [] 0).fopen
            (FileHandler.mk "nodeset.xml" (some 1) (some 2) (some ⟨0⟩) 0).file = some f ∧
          read_xmlfile (sampleWorld [60, 85, 65, 79, 98, 106, 101, 99, 116, 47, 62]
            [.startElementNs "UAObject" [], .endElementNs "UAObject"] 0 [] 0).tokenizer f
            (initialCtx (FileHandler.mk "nodeset.xml" (some 1) (some 2) (some ⟨0⟩) 0).userContext
              (FileHandler.mk "nodeset.xml" (some 1) (some 2) (some ⟨0⟩) 0).valueHandling) =
            some r ∧
          r.ret = 0 ∧
          (sampleWorld [60, 85, 65, 79, 98, 106, 101, 99, 116, 47, 62]
            [.startElementNs "UAObject" [], .endElementNs "UAObject"] 0 [] 0).Nodeset_getSortedNodes
            r.ctx.nodeset (FileHandler.mk "nodeset.xml" (some 1) (some 2) (some ⟨0⟩) 0).userContext
            2 r.ctx.valIf = true) ∧
      ((sampleWorld [60, 85, 65, 79, 98, 106, 101, 99, 116, 47, 62]
          [.startElementNs "UAObject" [], .endElementNs "UAObject"] 0 [] 0).fopen
          (FileHandler.mk "nodeset.xml" (some 1) (some 2) (some ⟨0⟩) 0).file = none →
        out = ⟨false, [.Nodeset_new 1,
          .fopen (FileHandler.mk "nodeset.xml" (some 1) (some 2) (some ⟨0⟩) 0).file,
          .Nodeset_cleanup]⟩) :=
  loadFile_status (sampleWorld [60, 85, 65, 79, 98, 106, 101, 99, 116, 47, 62]
    [.startElementNs "UAObject" [], .endElementNs "UAObject"] 0 [] 0)
    ⟨"nodeset.xml", some 1, some 2, some ⟨0⟩, 0⟩ 1 2 ⟨0⟩ rfl rfl rfl

/-! ## Counting finalised nodes -/

theorem finishCount_record (ns : Nodeset) (call : Call) :
    finishCount (ns.record call) = finishCount ns + (if call.isNodeFinish then 1 else 0) := by
  simp [finishCount, Nodeset.record, List.countP_append, List.countP_cons]

theorem nodeClassOf_none (name : String) (h : nodeClassOf name = none) :
    strEqual name VARIABLE = false ∧ strEqual name OBJECT = false ∧
    strEqual name OBJECTTYPE = false ∧ strEqual name DATATYPE = false ∧
    strEqual name METHOD = false ∧ strEqual name REFERENCETYPE = false ∧
    strEqual name VARIABLETYPE = false := by
  unfold nodeClassOf at h
  split_ifs at h
  simp_all

theorem OnStartElementNs_init_node (c : TParserCtx) (name : String) (attrs : Attrs)
    (cls : TNodeClass) (hs : c.state = .PARSER_STATE_INIT) (h : nodeClassOf name = some cls) :
    OnStartElementNs c name attrs = some { startNode c cls attrs with onCharacters := none } := by
  unfold nodeClassOf at h
  split_ifs at h <;> simp only [Option.some.injEq, reduceCtorEq] at h <;> subst h <;>
    simp [OnStartElementNs, startSwitch, hs, *]

theorem OnStartElementNs_init_other (c : TParserCtx) (name : String) (attrs : Attrs)
    (hs : c.state = .PARSER_STATE_INIT) (h : nodeClassOf name = none) :
    OnStartElementNs c name attrs =
      if strEqual name NAMESPACEURIS then
        some { c with state := .PARSER_STATE_NAMESPACEURIS, onCharacters := none }
      else if strEqual name ALIAS then
        some { c with
          node := none
          alias_ := some c.nodeset.fresh
          nodeset := c.nodeset.record (.Nodeset_newAlias attrs c.nodeset.fresh)
          state := .PARSER_STATE_ALIAS
          onCharacters := none }
      else if isTransparent name then
        some { c with state := .PARSER_STATE_INIT, onCharacters := none }
      else some { enterUnknownState c with onCharacters := none } := by
  obtain ⟨h1, h2, h3, h4, h5, h6, h7⟩ := nodeClassOf_none name h
  simp only [OnStartElementNs, startSwitch, hs, h1, h2, h3, h4, h5, h6, h7, isTransparent,
    Bool.false_eq_true, if_false]
  split_ifs <;> rfl

/-- What `OnStartElementNs` does to the observed part of a context outside the
state Unknown. -/
theorem OnStartElementNs_post (c : TParserCtx) (name : String) (attrs : Attrs)
    (hU : c.state ≠ .PARSER_STATE_UNKNOWN) (hv : c.valIf ≠ none) :
    ∃ c1, OnStartElementNs c name attrs = some c1 ∧
      c1.state = startTarget c.state name ∧ c1.valIf = c.valIf ∧
      (c.state ≠ .PARSER_STATE_INIT → c1.node = c.node) ∧
      (c.state = .PARSER_STATE_INIT → c1.state = .PARSER_STATE_NODE → c1.node ≠ none) ∧
      finishCount c1.nodeset = finishCount c.nodeset := by
  obtain ⟨v, hv1⟩ := Option.ne_none_iff_exists'.mp hv
  cases hs : c.state
  case PARSER_STATE_INIT =>
    cases hn : nodeClassOf name with
    | some cls =>
      refine ⟨_, OnStartElementNs_init_node c name attrs cls hs hn, ?_⟩
      simp [startNode, startTarget, hn, finishCount_record, Call.isNodeFinish]
    | none =>
      rw [OnStartElementNs_init_other c name attrs hs hn]
      simp only [startTarget, hn, Option.isSome_none, Bool.false_eq_true, if_false]
      split_ifs <;>
        simp [enterUnknownState, finishCount_record, Call.isNodeFinish]
  all_goals
    simp_all [OnStartElementNs, startSwitch, startTarget,
      enterUnknownState, finishCount_record, Call.isNodeFinish] <;>
    split_ifs <;> simp_all [finishCount_record, Call.isNodeFinish]

/-- What `OnEndElementNs` does to the observed part of a context outside the
state Unknown. -/
theorem OnEndElementNs_post (c : TParserCtx) (name : String)
    (hU : c.state ≠ .PARSER_STATE_UNKNOWN) (hv : c.valIf ≠ none)
    (hn : c.state = .PARSER_STATE_DISPLAYNAME ∨
      (c.state = .PARSER_STATE_VALUE ∧ name = VALUE) → c.node ≠ none) :
    ∃ c1, OnEndElementNs c name = some c1 ∧
      c1.state = endTarget c.state name ∧ c1.valIf = c.valIf ∧ c1.node = c.node ∧
      finishCount c1.nodeset =
        finishCount c.nodeset + (if c.state = .PARSER_STATE_NODE then 1 else 0) := by
  obtain ⟨v, hv1⟩ := Option.ne_none_iff_exists'.mp hv
  cases hs : c.state
  case PARSER_STATE_DISPLAYNAME =>
    obtain ⟨n, hn1⟩ := Option.ne_none_iff_exists'.mp (hn (Or.inl hs))
    simp [OnEndElementNs, endSwitch, endTarget, hs, hn1, hv1, finishCount_record,
      Call.isNodeFinish]
  case PARSER_STATE_VALUE =>
    by_cases hname : name = VALUE
    · obtain ⟨n, hn1⟩ := Option.ne_none_iff_exists'.mp (hn (Or.inr ⟨hs, hname⟩))
      simp [OnEndElementNs, endSwitch, endTarget, hs, hn1, hv1, hname, finishCount_record,
        Call.isNodeFinish]
    · simp [OnEndElementNs, endSwitch, endTarget, hs, hv1, hname, finishCount_record,
        Call.isNodeFinish]
  all_goals
    simp_all [OnEndElementNs, endSwitch, endTarget, finishCount_record, Call.isNodeFinish]

/-! ### Facts on the transition table -/

theorem startTarget_end (s : TParserState) (name : String)
    (hV : s = .PARSER_STATE_VALUE → name ≠ VALUE)
    (hT : startTarget s name ≠ .PARSER_STATE_UNKNOWN) :
    endTarget (startTarget s name) name = s := by
  cases s <;> simp only [startTarget] at hT ⊢
  case PARSER_STATE_VALUE => simp [endTarget, hV rfl]
  case PARSER_STATE_NODE =>
    split_ifs at hT ⊢ with h1 h2 h3 h4
    · rfl
    · rfl
    · rfl
    · have h5 : name = VALUE := by simpa [strEqual] using h4
      simp [endTarget, h5]
    · exact absurd rfl hT
  all_goals first
    | exact absurd rfl hT
    | (split_ifs at hT ⊢ <;> first | rfl | exact absurd rfl hT)

theorem startTarget_eq_value (s : TParserState) (name : String)
    (h : startTarget s name = .PARSER_STATE_VALUE) :
    s = .PARSER_STATE_VALUE ∨ (s = .PARSER_STATE_NODE ∧ strEqual name VALUE = true) := by
  cases s <;> simp only [startTarget] at h
  case PARSER_STATE_VALUE => exact Or.inl rfl
  case PARSER_STATE_NODE =>
    split_ifs at h with h1 h2 h3 h4
    exact Or.inr ⟨rfl, h4⟩
  all_goals first
    | exact absurd h (by decide)
    | (split_ifs at h)

theorem startTarget_eq_displayName (s : TParserState) (name : String)
    (h : startTarget s name = .PARSER_STATE_DISPLAYNAME) : s = .PARSER_STATE_NODE := by
  cases s <;> simp only [startTarget] at h
  case PARSER_STATE_NODE => rfl
  all_goals first
    | exact absurd h (by decide)
    | (split_ifs at h)

theorem startTarget_eq_init (s : TParserState) (name : String)
    (h : startTarget s name = .PARSER_STATE_INIT) :
    s = .PARSER_STATE_INIT ∧ (nodeClassOf name).isSome = false ∧ isTransparent name = true := by
  cases s <;> simp only [startTarget] at h
  case PARSER_STATE_INIT =>
    split_ifs at h with h1 h2 h3 h4
    exact ⟨rfl, by simpa using h1, h4⟩
  all_goals first
    | exact absurd h (by decide)
    | (split_ifs at h)

theorem startTarget_eq_node (s : TParserState) (name : String)
    (h : startTarget s name = .PARSER_STATE_NODE) :
    s = .PARSER_STATE_INIT ∧ (nodeClassOf name).isSome = true := by
  cases s <;> simp only [startTarget] at h
  case PARSER_STATE_INIT =>
    split_ifs at h with h1
    exact ⟨rfl, h1⟩
  all_goals first
    | exact absurd h (by decide)
    | (split_ifs at h)

theorem startTarget_init_other (name : String)
    (h : startTarget .PARSER_STATE_INIT name ≠ .PARSER_STATE_NODE)
    (h2 : startTarget .PARSER_STATE_INIT name ≠ .PARSER_STATE_INIT) :
    (nodeClassOf name).isSome = false ∧ isTransparent name = false := by
  simp only [startTarget] at h h2
  split_ifs at h h2 with h1 h3 h4 h5
  · exact absurd rfl h
  · exact ⟨by simpa using h1, by
      simp only [isTransparent, strEqual, NAMESPACEURIS, decide_eq_true_eq] at h3 ⊢
      subst h3
      decide⟩
  · exact ⟨by simpa using h1, by
      simp only [isTransparent, strEqual, ALIAS, decide_eq_true_eq] at h4 ⊢
      subst h4
      decide⟩
  · exact absurd rfl h2
  · exact ⟨by simpa using h1, by simpa using h5⟩

theorem startTarget_unknown (s : TParserState) (name : String)
    (hU : s ≠ .PARSER_STATE_UNKNOWN)
    (h : startTarget s name = .PARSER_STATE_UNKNOWN) :
    s ≠ .PARSER_STATE_VALUE ∧ recognised s name = false := by
  cases s <;> simp only [startTarget] at h
  case PARSER_STATE_UNKNOWN => exact absurd rfl hU
  case PARSER_STATE_VALUE => exact absurd h (by decide)
  case PARSER_STATE_INIT =>
    refine ⟨by decide, ?_⟩
    split_ifs at h with h1 h2 h3 h4
    have h5 := nodeClassOf_none name (by simpa using h1)
    simp only [isTransparent, strEqual, Bool.or_eq_true, decide_eq_true_eq, not_or,
      decide_eq_false_iff_not] at h2 h3 h4 h5
    simp [recognised, h2, h3, h4, h5]
  case PARSER_STATE_NAMESPACEURIS =>
    refine ⟨by decide, ?_⟩
    split_ifs at h with h1
    simpa [recognised, strEqual] using h1
  case PARSER_STATE_NODE =>
    refine ⟨by decide, ?_⟩
    split_ifs at h with h1 h2 h3 h4
    simp only [strEqual, decide_eq_true_eq] at h1 h2 h3 h4
    simp [recognised, h1, h2, h3, h4]
  case PARSER_STATE_REFERENCES =>
    refine ⟨by decide, ?_⟩
    split_ifs at h with h1
    simpa [recognised, strEqual] using h1
  all_goals exact ⟨by decide, rfl⟩

theorem noValueElem_noNestedValue (f : Forest) (h : f.noValueElem = true) :
    f.noNestedValue = true := by
  induction f with
  | nil => rfl
  | text ch rest ih => exact ih h
  | elem name attrs children rest ihc ihr =>
    simp only [Forest.noValueElem, Bool.and_eq_true, Bool.not_eq_true'] at h
    simp [Forest.noNestedValue, h.1.1, ihc h.1.2, ihr h.2]

theorem events_elem_split (name : String) (attrs : Attrs) (children rest : Forest) :
    (Forest.elem name attrs children rest).events =
      (Forest.elem name attrs children .nil).events ++ rest.events := by
  simp [Forest.events]

/-- A well-nested piece of a document without `Value` inside `Value`, handled
from any state but Unknown, leads back to the same state; in the state Init it
finalises one node per node-class element at Init level, elsewhere none. -/
theorem run_forest_count (f : Forest) :
    ∀ c : TParserCtx, c.state ≠ .PARSER_STATE_UNKNOWN → c.valIf ≠ none →
      (c.state = .PARSER_STATE_NODE → c.node ≠ none) →
      f.noNestedValue = true → (c.state = .PARSER_STATE_VALUE → f.noValueElem = true) →
      ∃ c1, run c f.events = some c1 ∧ c1.state = c.state ∧ c1.valIf = c.valIf ∧
        (c.state ≠ .PARSER_STATE_INIT → c1.node = c.node) ∧
        finishCount c1.nodeset = finishCount c.nodeset +
          (if c.state = .PARSER_STATE_INIT then f.initNodeElements else 0) := by
  induction f with
  | nil =>
    intro c _ _ _ _ _
    exact ⟨c, rfl, rfl, rfl, fun _ => rfl, by simp [Forest.initNodeElements]⟩
  | text ch rest ih =>
    intro c hU hv hnode hnn hval
    obtain ⟨c1, h1, hs1, hv1, hn1, hc1⟩ := ih (OnCharacters c ch) hU hv hnode hnn hval
    exact ⟨c1, by rw [Forest.events, run_cons]; exact h1, hs1, hv1, hn1, hc1⟩
  | elem name attrs children rest ihc ihr =>
    intro c hU hv hnode hnn hval
    simp only [Forest.noNestedValue, Bool.and_eq_true] at hnn
    obtain ⟨hnnc, hnnr⟩ := hnn
    have hvalr : c.state = .PARSER_STATE_VALUE → rest.noValueElem = true := by
      intro h
      have := hval h
      simp only [Forest.noValueElem, Bool.and_eq_true] at this
      exact this.2
    by_cases hT : startTarget c.state name = .PARSER_STATE_UNKNOWN
    · obtain ⟨hV, hrec⟩ := startTarget_unknown c.state name hU hT
      have hskip := run_skip_element c name attrs children hU hV hrec
      obtain ⟨c1, h1, hs1, hv1, hn1, hc1⟩ := ihr
        { c with prev_state := c.state, unknown_depth := 0, onCharacters := none }
        hU hv hnode hnnr hvalr
      refine ⟨c1, ?_, hs1, hv1, hn1, ?_⟩
      · rw [events_elem_split, run_append, hskip, Option.some_bind, h1]
      · rw [hc1]
        by_cases hI : c.state = .PARSER_STATE_INIT
        · rw [hI] at hT
          obtain ⟨hnc, htr⟩ := startTarget_init_other name (by rw [hT]; decide)
            (by rw [hT]; decide)
          simp [hI, Forest.initNodeElements, hnc, htr]
        · simp [hI]
    · obtain ⟨ca, ha, hsa, hva, hna, hnna, hca⟩ := OnStartElementNs_post c name attrs hU hv
      have hVname : c.state = .PARSER_STATE_VALUE → name ≠ VALUE := by
        intro h
        have := hval h
        simp only [Forest.noValueElem, Bool.and_eq_true, Bool.not_eq_true', strEqual,
          decide_eq_false_iff_not] at this
        exact this.1.1
      have hca_node : ca.state = .PARSER_STATE_NODE → ca.node ≠ none := by
        intro h
        have h2 := startTarget_eq_node c.state name (by rw [← hsa]; exact h)
        exact hnna h2.1 h
      have hca_nn : children.noNestedValue = true := by
        by_cases hname : strEqual name VALUE = true
        · simp only [hname, if_true] at hnnc
          exact noValueElem_noNestedValue children hnnc
        · simpa only [hname, if_false] using hnnc
      have hca_val : ca.state = .PARSER_STATE_VALUE → children.noValueElem = true := by
        intro h
        rcases startTarget_eq_value c.state name (by rw [← hsa]; exact h) with h2 | ⟨_, h2⟩
        · have := hval h2
          simp only [Forest.noValueElem, Bool.and_eq_true] at this
          exact this.1.2
        · simpa only [h2, if_true] using hnnc
      obtain ⟨cb, hb, hsb, hvb, hnb, hcb⟩ := ihc ca (by rw [hsa]; exact hT)
        (by rw [hva]; exact hv) hca_node hca_nn hca_val
      have hcb_node : cb.state = .PARSER_STATE_DISPLAYNAME ∨
          (cb.state = .PARSER_STATE_VALUE ∧ name = VALUE) → cb.node ≠ none := by
        intro h
        have hsN : c.state = .PARSER_STATE_NODE := by
          rcases h with h | ⟨h, hname⟩
          · exact startTarget_eq_displayName c.state name (by rw [← hsa, ← hsb]; exact h)
          · rcases startTarget_eq_value c.state name (by rw [← hsa, ← hsb]; exact h) with
              h2 | ⟨h2, _⟩
            · exact absurd hname (hVname h2)
            · exact h2
        have hne : ca.state ≠ .PARSER_STATE_INIT := by
          rcases h with h | ⟨h, _⟩
          · rw [← hsb, h]; decide
          · rw [← hsb, h]; decide
        rw [hnb hne, hna (by rw [hsN]; decide)]
        exact hnode hsN
      obtain ⟨cd, hd, hsd, hvd, hnd, hcd⟩ := OnEndElementNs_post cb name
        (by rw [hsb, hsa]; exact hT) (by rw [hvb, hva]; exact hv) hcb_node
      have hsd2 : cd.state = c.state := by
        rw [hsd, hsb, hsa]
        exact startTarget_end c.state name hVname hT
      obtain ⟨ce, he, hse, hve, hne, hce⟩ := ihr cd (by rw [hsd2]; exact hU)
        (by rw [hvd, hvb, hva]; exact hv)
        (by
          intro h
          have hsN : c.state = .PARSER_STATE_NODE := by rw [← hsd2]; exact h
          have hne : ca.state ≠ .PARSER_STATE_INIT := by
            intro h3
            have := (startTarget_eq_init c.state name (by rw [← hsa]; exact h3)).1
            rw [hsN] at this
            exact absurd this (by decide)
          rw [hnd, hnb hne, hna (by rw [hsN]; decide)]
          exact hnode hsN)
        hnnr (by rw [hsd2]; exact hvalr)
      refine ⟨ce, ?_, by rw [hse, hsd2], by rw [hve, hvd, hvb, hva], ?_, ?_⟩
      · rw [Forest.events, run_cons]
        simp only [dispatch, ha, Option.some_bind]
        rw [run_append, hb, Option.some_bind, run_cons]
        simp only [dispatch, hd, Option.some_bind]
        exact he
      · intro hI
        have hne2 : ca.state ≠ .PARSER_STATE_INIT := by
          intro h3
          exact hI (startTarget_eq_init c.state name (by rw [← hsa]; exact h3)).1
        rw [hne (by rw [hsd2]; exact hI), hnd, hnb hne2, hna hI]
      · rw [hce, hcd, hcb, hca, hsd2, hsb, hsa]
        by_cases hI : c.state = .PARSER_STATE_INIT
        · simp only [hI, if_true, Forest.initNodeElements]
          by_cases hN : startTarget .PARSER_STATE_INIT name = .PARSER_STATE_NODE
          · have h2 := (startTarget_eq_node _ name hN).2
            simp [hN, h2]
            omega
          · by_cases hI2 : startTarget .PARSER_STATE_INIT name = .PARSER_STATE_INIT
            · obtain ⟨_, h3, h4⟩ := startTarget_eq_init _ name hI2
              simp [hI2, h3, h4]
              omega
            · obtain ⟨h3, h4⟩ := startTarget_init_other name hN hI2
              simp [hN, hI2, h3, h4]
        · have hN : startTarget c.state name ≠ .PARSER_STATE_NODE := fun h =>
            hI (startTarget_eq_node _ name h).1
          have hI2 : startTarget c.state name ≠ .PARSER_STATE_INIT := fun h =>
            hI (startTarget_eq_init _ name h).1
          simp [hI, hN, hI2]

/-- C5, as the code has it: for every well-nested document in which no
`Value` element has a descendant element named `Value`, handled from the
initial context with the decoder interface present, the run returns in the
state Init and the number of `Nodeset_newNodeFinish` calls equals the number
of node-class elements that are at top level or nested inside the transparent
containers `UANodeSet`, `Aliases`, `Extensions` only. Node-class elements
nested in a node, in `NamespaceUris`, in `Alias` or in an unknown element are
skipped. -/
theorem node_count_init_level (doc : Forest) (userContext : Nat) (vi : ValueInterface)
    (hnn : doc.noNestedValue = true) :
    ∃ c1, run (initialCtx userContext (some vi)) doc.events = some c1 ∧
      c1.state = .PARSER_STATE_INIT ∧
      finishCount c1.nodeset = doc.initNodeElements := by
  obtain ⟨c1, h1, hs1, _, _, hc1⟩ := run_forest_count doc (initialCtx userContext (some vi))
    (by simp [initialCtx]) (by simp [initialCtx]) (by simp [initialCtx]) hnn
    (by simp [initialCtx])
  refine ⟨c1, h1, by rw [hs1]; rfl, ?_⟩
  rw [hc1]
  simp [initialCtx, finishCount]

theorem node_count_init_level_witness :
    ∃ c1, run (initialCtx 0 (some ⟨0⟩))
        (Forest.events (.elem "UANodeSet" []
          (.elem "UAObject" [] (.elem "UAVariable" [] .nil .nil)
            (.elem "UAVariable" [] (.elem "Value" [] (.elem "Int32" [] .nil .nil) .nil) .nil))
          .nil)) = some c1 ∧
      c1.state = .PARSER_STATE_INIT ∧
      finishCount c1.nodeset = Forest.initNodeElements (.elem "UANodeSet" []
          (.elem "UAObject" [] (.elem "UAVariable" [] .nil .nil)
            (.elem "UAVariable" [] (.elem "Value" [] (.elem "Int32" [] .nil .nil) .nil) .nil))
          .nil) :=
  node_count_init_level (.elem "UANodeSet" []
      (.elem "UAObject" [] (.elem "UAVariable" [] .nil .nil)
        (.elem "UAVariable" [] (.elem "Value" [] (.elem "Int32" [] .nil .nil) .nil) .nil))
      .nil) 0 ⟨0⟩ (by decide)

/-- C5 as stated fails: in `<UAObject><UAVariable/></UAObject>` there are two
node-class elements and one node is finalised; the nested one is skipped as
unknown content of the outer node. -/
theorem node_count_counterexample :
    (run (initialCtx 0 (some ⟨0⟩))
        (Forest.events (.elem "UAObject" [("NodeId", "i=1")]
          (.elem "UAVariable" [("NodeId", "i=2")] .nil .nil) .nil))).map
        (fun c => (c.state, finishCount c.nodeset)) = some (.PARSER_STATE_INIT, 1) ∧
    Forest.nodeElements (.elem "UAObject" [("NodeId", "i=1")]
        (.elem "UAVariable" [("NodeId", "i=2")] .nil .nil) .nil) = 2 := by
  decide

/-! ## Values and node classes -/

/-- C11 fails on a `Value` child of an Object node: `OnStartElementNs` calls the
decoder's `newValue` for the node whatever its class, and the end-element of
`Value` stores the handle through the cast `(TVariableNode*)pctx->node`. -/
theorem value_attached_to_object_node :
    (run (initialCtx 0 (some ⟨0⟩))
        (Forest.events (.elem "UAObject" [] (.elem "Value" [] .nil .nil) .nil))).map
        (fun c => (c.nodeClass, c.nodeset.calls)) =
      some (some .NODECLASS_OBJECT,
        [.Nodeset_newNode .NODECLASS_OBJECT [] 0, .valIf_newValue (some 0) 1,
          .valIf_finish (some 1), .store_value 0 (some 1),
          .Nodeset_newNodeFinish (some 0)]) := by
  decide

/-! ## Node creation -/

theorem newNodeCount_record (ns : Nodeset) (call : Call) :
    newNodeCount (ns.record call) = newNodeCount ns + (if call.isNewNode then 1 else 0) := by
  simp [newNodeCount, Nodeset.record, List.countP_append, List.countP_cons]

/-- Outside the state Init no start-element adds a `Nodeset_newNode` call. -/
theorem OnStartElementNs_no_newNode (c c1 : TParserCtx) (name : String) (attrs : Attrs)
    (hI : c.state ≠ .PARSER_STATE_INIT) (h : OnStartElementNs c name attrs = some c1) :
    newNodeCount c1.nodeset = newNodeCount c.nodeset := by
  cases hv : c.valIf <;> cases hs : c.state
  all_goals first
    | exact absurd hs hI
    | skip
  all_goals simp only [OnStartElementNs, startSwitch, hs, hv] at h
  all_goals (try split_ifs at h)
  all_goals (try simp only [Option.map_some', Option.some.injEq, Option.map_none',
    reduceCtorEq] at h)
  all_goals (try subst h)
  all_goals simp [enterUnknownState, newNodeCount_record, Call.isNewNode]

/-- C12: in the state Init a start-element named `UAVariable`, `UAObject`,
`UAObjectType`, `UADataType`, `UAMethod`, `UAReferenceType` or `UAVariableType`
makes exactly one `Nodeset_newNode` call, of the class Variable, Object,
ObjectType, DataType, Method, ReferenceType or VariableType respectively, with
that element's attributes, keeps the returned node as current node and enters
the state Node; in every other state no start-element of any name adds a
`Nodeset_newNode` call. -/
theorem node_creation_table (c : TParserCtx) (attrs : Attrs) :
    (c.state = .PARSER_STATE_INIT →
      OnStartElementNs c "UAVariable" attrs =
        some { startNode c .NODECLASS_VARIABLE attrs with onCharacters := none } ∧
      OnStartElementNs c "UAObject" attrs =
        some { startNode c .NODECLASS_OBJECT attrs with onCharacters := none } ∧
      OnStartElementNs c "UAObjectType" attrs =
        some { startNode c .NODECLASS_OBJECTTYPE attrs with onCharacters := none } ∧
      OnStartElementNs c "UADataType" attrs =
        some { startNode c .NODECLASS_DATATYPE attrs with onCharacters := none } ∧
      OnStartElementNs c "UAMethod" attrs =
        some { startNode c .NODECLASS_METHOD attrs with onCharacters := none } ∧
      OnStartElementNs c "UAReferenceType" attrs =
        some { startNode c .NODECLASS_REFERENCETYPE attrs with onCharacters := none } ∧
      OnStartElementNs c "UAVariableType" attrs =
        some { startNode c .NODECLASS_VARIABLETYPE attrs with onCharacters := none }) ∧
    (∀ cls : TNodeClass,
      (startNode c cls attrs).state = .PARSER_STATE_NODE ∧
      (startNode c cls attrs).nodeClass = some cls ∧
      (startNode c cls attrs).node = some c.nodeset.calls.length ∧
      (startNode c cls attrs).nodeset.calls =
        c.nodeset.calls ++ [.Nodeset_newNode cls attrs c.nodeset.calls.length]) ∧
    (c.state ≠ .PARSER_STATE_INIT → ∀ (name : String) (c1 : TParserCtx),
      OnStartElementNs c name attrs = some c1 →
      newNodeCount c1.nodeset = newNodeCount c.nodeset) := by
  refine ⟨fun hs => ⟨?_, ?_, ?_, ?_, ?_, ?_, ?_⟩, fun cls => ⟨rfl, rfl, rfl, rfl⟩,
    fun hI name c1 h => OnStartElementNs_no_newNode c c1 name attrs hI h⟩
  all_goals exact OnStartElementNs_init_node c _ attrs _ hs (by decide)

/-! ## Return to the enclosing state -/

theorem OnStartElementNs_state (c ca : TParserCtx) (name : String) (attrs : Attrs)
    (hU : c.state ≠ .PARSER_STATE_UNKNOWN) (h : OnStartElementNs c name attrs = some ca) :
    ca.state = startTarget c.state name ∧
      (startTarget c.state name ≠ .PARSER_STATE_UNKNOWN →
        ca.unknown_depth = c.unknown_depth ∧ ca.prev_state = c.prev_state) := by
  by_cases hI : c.state = .PARSER_STATE_INIT
  · cases hn : nodeClassOf name with
    | some cls =>
      rw [OnStartElementNs_init_node c name attrs cls hI hn] at h
      simp only [Option.some.injEq] at h
      subst h
      simp [startNode, startTarget, hI, hn]
    | none =>
      rw [OnStartElementNs_init_other c name attrs hI hn] at h
      split_ifs at h <;> simp only [Option.some.injEq] at h <;> subst h <;>
        simp_all [startTarget, enterUnknownState]
  · cases hv : c.valIf <;> cases hs : c.state
    all_goals first
      | exact absurd hs hI
      | exact absurd hs hU
      | skip
    all_goals simp only [OnStartElementNs, startSwitch, hs, hv] at h
    all_goals (try split_ifs at h)
    all_goals (try simp only [Option.map_some', Option.some.injEq, Option.map_none',
      reduceCtorEq] at h)
    all_goals (try subst h)
    all_goals simp_all [enterUnknownState, startTarget]

theorem OnEndElementNs_state (c cd : TParserCtx) (name : String)
    (hU : c.state ≠ .PARSER_STATE_UNKNOWN) (h : OnEndElementNs c name = some cd) :
    cd.state = endTarget c.state name ∧ cd.unknown_depth = c.unknown_depth ∧
      cd.prev_state = c.prev_state := by
  cases hv : c.valIf <;> cases hn : c.node <;> cases hs : c.state
  all_goals first
    | exact absurd hs hU
    | skip
  all_goals simp only [OnEndElementNs, endSwitch, hs, hv, hn] at h
  all_goals (try split_ifs at h)
  all_goals (try simp only [Option.map_some', Option.some.injEq, Option.map_none',
    reduceCtorEq] at h)
  all_goals (try subst h)
  all_goals simp_all [endTarget]

theorem encloses_refl (s : TParserState) : encloses s s = true := by
  cases s <;> rfl

theorem encloses_trans (a b c : TParserState) (h1 : encloses a b = true)
    (h2 : encloses b c = true) : encloses a c = true := by
  cases a <;> cases b <;> first | exact absurd h1 Bool.false_ne_true | (cases c <;> first | rfl | exact absurd h2 Bool.false_ne_true)

theorem encloses_ne_unknown (a b : TParserState) (h : encloses a b = true)
    (hb : b ≠ .PARSER_STATE_UNKNOWN) : a ≠ .PARSER_STATE_UNKNOWN := by
  cases a <;> cases b <;> first | exact absurd rfl hb | exact absurd h Bool.false_ne_true | decide

theorem endTarget_encloses (s sb : TParserState) (name : String)
    (hT : startTarget s name ≠ .PARSER_STATE_UNKNOWN)
    (h : encloses sb (startTarget s name) = true) :
    encloses (endTarget sb name) s = true := by
  cases s <;> simp only [startTarget] at hT h <;> (try split_ifs at hT h) <;>
    (try exact absurd rfl hT) <;> cases sb <;>
    (try exact absurd h Bool.false_ne_true) <;> simp only [endTarget] <;>
    (try split_ifs) <;> (try rfl)
  all_goals simp_all [strEqual]

/-- A well-nested piece of a document, handled from any state but Unknown,
ends in that state or in a state enclosing it, never in Unknown, whatever the
element names; a zero `unknown_depth` stays zero. -/
theorem run_forest_encloses (f : Forest) :
    ∀ c c1 : TParserCtx, c.state ≠ .PARSER_STATE_UNKNOWN → run c f.events = some c1 →
      encloses c1.state c.state = true ∧
        (c.unknown_depth = 0 → c1.unknown_depth = 0) := by
  induction f with
  | nil =>
    intro c c1 _ h
    simp only [Forest.events, run, Option.some.injEq] at h
    subst h
    exact ⟨encloses_refl _, fun h => h⟩
  | text ch rest ih =>
    intro c c1 hU h
    rw [Forest.events, run_cons] at h
    exact ih (OnCharacters c ch) c1 hU h
  | elem name attrs children rest ihc ihr =>
    intro c c1 hU h
    by_cases hT : startTarget c.state name = .PARSER_STATE_UNKNOWN
    · obtain ⟨hV, hrec⟩ := startTarget_unknown c.state name hU hT
      rw [events_elem_split, run_append, run_skip_element c name attrs children hU hV hrec,
        Option.some_bind] at h
      obtain ⟨h1, h2⟩ := ihr
        { c with prev_state := c.state, unknown_depth := 0, onCharacters := none } c1 hU h
      exact ⟨h1, fun _ => h2 rfl⟩
    · rw [Forest.events, run_cons] at h
      cases hca : OnStartElementNs c name attrs with
      | none => simp [dispatch, hca] at h
      | some ca =>
        simp only [dispatch, hca, Option.some_bind] at h
        rw [run_append] at h
        cases hcb : run ca children.events with
        | none => simp [hcb] at h
        | some cb =>
          rw [hcb, Option.some_bind, run_cons] at h
          cases hcd : OnEndElementNs cb name with
          | none => simp [dispatch, hcd] at h
          | some cd =>
            simp only [dispatch, hcd, Option.some_bind] at h
            obtain ⟨hsa, hda⟩ := OnStartElementNs_state c ca name attrs hU hca
            have hUa : ca.state ≠ .PARSER_STATE_UNKNOWN := by rw [hsa]; exact hT
            obtain ⟨heb, hdb⟩ := ihc ca cb hUa hcb
            have hUb : cb.state ≠ .PARSER_STATE_UNKNOWN :=
              encloses_ne_unknown _ _ heb hUa
            obtain ⟨hsd, hdd, _⟩ := OnEndElementNs_state cb cd name hUb hcd
            have hed : encloses cd.state c.state = true := by
              rw [hsd]
              exact endTarget_encloses c.state cb.state name hT (by rw [← hsa]; exact heb)
            have hUd : cd.state ≠ .PARSER_STATE_UNKNOWN := encloses_ne_unknown _ _ hed hU
            obtain ⟨he1, hd1⟩ := ihr cd c1 hUd h
            refine ⟨encloses_trans _ _ _ he1 hed, fun h0 => hd1 ?_⟩
            rw [hdd]
            exact hdb (by rw [(hda hT).1]; exact h0)

theorem encloses_init (s : TParserState) (h : encloses s .PARSER_STATE_INIT = true) :
    s = .PARSER_STATE_INIT := by
  cases s <;> first | rfl | exact absurd h Bool.false_ne_true

theorem run_from_init (f : Forest) (c c1 : TParserCtx) (hs : c.state = .PARSER_STATE_INIT)
    (h : run c f.events = some c1) :
    c1.state = .PARSER_STATE_INIT ∧ (c.unknown_depth = 0 → c1.unknown_depth = 0) := by
  obtain ⟨h1, h2⟩ := run_forest_encloses f c c1 (by rw [hs]; decide) h
  rw [hs] at h1
  exact ⟨encloses_init _ h1, h2⟩

/-- C18: every well-nested event sequence, whatever its element names (a
`Value` nested in a `Value` subtree included), handled from the initial
context, ends in the state Init with `unknown_depth` 0 whenever it returns, and
it returns whenever the decoder interface is present. -/
theorem return_to_init (doc : Forest) (userContext : Nat) (valIf : Option ValueInterface) :
    (∀ c1, run (initialCtx userContext valIf) doc.events = some c1 →
      c1.state = .PARSER_STATE_INIT ∧ c1.unknown_depth = 0) ∧
    (valIf ≠ none → ∃ c1, run (initialCtx userContext valIf) doc.events = some c1) := by
  constructor
  · intro c1 h
    obtain ⟨h1, h2⟩ := run_from_init doc (initialCtx userContext valIf) c1 rfl h
    exact ⟨h1, h2 rfl⟩
  · intro hv
    obtain ⟨v, hv1⟩ := Option.ne_none_iff_exists'.mp hv
    obtain ⟨c1, h1, _⟩ := run_safe doc.events (initialCtx userContext valIf)
      (by simp [safeCtx, initialCtx, hv1, needsNode])
    exact ⟨c1, h1⟩

/-! ## Transparent containers -/

theorem OnStartElementNs_text_fields (st ps : TParserState) (ud : Nat)
    (nc : Option TNodeClass) (nd al : Option Nat) (oc t : Option CString) (uc : Nat)
    (vl : Option Nat) (vi : Option ValueInterface) (rf : Option Nat) (ns : Nodeset)
    (name : String) (attrs : Attrs) :
    OnStartElementNs ⟨st, ps, ud, nc, nd, al, t, uc, vl, vi, rf, ns⟩ name attrs =
      OnStartElementNs ⟨st, ps, ud, nc, nd, al, oc, uc, vl, vi, rf, ns⟩ name attrs := by
  cases st <;> cases vi
  all_goals simp only [OnStartElementNs, startSwitch, map_ite_some]
  all_goals rfl

/-- `OnStartElementNs` does not read the accumulated text. -/
theorem OnStartElementNs_text_irrelevant (c : TParserCtx) (t : Option CString)
    (name : String) (attrs : Attrs) :
    OnStartElementNs { c with onCharacters := t } name attrs =
      OnStartElementNs c name attrs := by
  obtain ⟨st, ps, ud, nc, nd, al, oc, uc, vl, vi, rf, ns⟩ := c
  exact OnStartElementNs_text_fields st ps ud nc nd al oc t uc vl vi rf ns name attrs

/-- The text pending before a well-nested piece of a document only shows in
the text pending after it. -/
theorem run_forest_text (f : Forest) :
    ∀ (c : TParserCtx) (t : Option CString),
      (run { c with onCharacters := t } f.events).map
          (fun x => { x with onCharacters := none }) =
        (run c f.events).map (fun x => { x with onCharacters := none }) := by
  induction f with
  | nil => intro c t; simp [Forest.events, run]
  | text ch rest ih =>
    intro c t
    rw [Forest.events, run_cons, run_cons]
    simp only [dispatch, Option.some_bind]
    have h1 : OnCharacters { c with onCharacters := t } ch =
        { OnCharacters c ch with onCharacters := some (appendChars t ch) } := rfl
    rw [h1, ih]
  | elem name attrs children rest _ _ =>
    intro c t
    rw [Forest.events, run_cons, run_cons]
    simp only [dispatch, OnStartElementNs_text_irrelevant]

theorem OnStartElementNs_transparent (c : TParserCtx) (name : String) (attrs : Attrs)
    (hs : c.state = .PARSER_STATE_INIT) (ht : isTransparent name = true) :
    OnStartElementNs c name attrs = some { c with onCharacters := none } := by
  have hname : name = "UANodeSet" ∨ name = "Aliases" ∨ name = "Extensions" := by
    simpa [isTransparent, strEqual, or_assoc] using ht
  have hc : ({ c with state := .PARSER_STATE_INIT, onCharacters := none } : TParserCtx) =
      { c with onCharacters := none } := by
    rw [← hs]
  rcases hname with h | h | h <;> subst h <;>
    rw [OnStartElementNs_init_other c _ attrs hs (by decide), ← hc] <;> rfl

theorem OnEndElementNs_init (c : TParserCtx) (name : String)
    (hs : c.state = .PARSER_STATE_INIT) :
    OnEndElementNs c name = some { c with onCharacters := none } := by
  simp [OnEndElementNs, endSwitch, hs]

/-- C13: for every well-nested event sequence handled from a context in the
state Init, wrapping it in a `UANodeSet`, `Aliases` or `Extensions` element
gives the same result as the sequence alone, up to the accumulated text, which
the wrapper's end-element clears: the same calls of the graph and the decoder
with the same arguments, and the same final state. -/
theorem transparent_container (c : TParserCtx) (name : String) (attrs : Attrs)
    (inner : Forest) (hs : c.state = .PARSER_STATE_INIT) (ht : isTransparent name = true) :
    run c (Forest.events (.elem name attrs inner .nil)) =
      (run c inner.events).map (fun c1 => { c1 with onCharacters := none }) ∧
    (run c (Forest.events (.elem name attrs inner .nil))).map
        (fun c1 => (c1.state, c1.nodeset.calls)) =
      (run c inner.events).map (fun c1 => (c1.state, c1.nodeset.calls)) ∧
    (c.valIf ≠ none → ∃ c1, run c inner.events = some c1) := by
  have hmain : run c (Forest.events (.elem name attrs inner .nil)) =
      (run c inner.events).map (fun c1 => { c1 with onCharacters := none }) := by
    rw [Forest.events, run_cons]
    simp only [dispatch, OnStartElementNs_transparent c name attrs hs ht, Option.some_bind]
    rw [run_append, ← run_forest_text inner c none]
    cases hb : run { c with onCharacters := none } inner.events with
    | none => simp
    | some cb =>
      have hsb := (run_from_init inner _ cb (by simpa using hs) hb).1
      simp [Forest.events, run, dispatch, OnEndElementNs_init cb name hsb]
  refine ⟨hmain, ?_, ?_⟩
  · rw [hmain]
    cases run c inner.events <;> simp
  · intro hv
    obtain ⟨v, hv1⟩ := Option.ne_none_iff_exists'.mp hv
    obtain ⟨c1, h1, _⟩ := run_safe inner.events c
      (by simp [safeCtx, hv1, hs, needsNode])
    exact ⟨c1, h1⟩

theorem transparent_container_witness :
    run (initialCtx 0 (some ⟨0⟩)) (Forest.events (.elem "UANodeSet" []
        (.elem "UAObject" [] (.elem "DisplayName" [] (.text [79] .nil) .nil) (.text [10] .nil))
        .nil)) =
      (run (initialCtx 0 (some ⟨0⟩)) (Forest.events
        (.elem "UAObject" [] (.elem "DisplayName" [] (.text [79] .nil) .nil)
          (.text [10] .nil)))).map
        (fun c1 => { c1 with onCharacters := none }) ∧
    (run (initialCtx 0 (some ⟨0⟩)) (Forest.events (.elem "UANodeSet" []
        (.elem "UAObject" [] (.elem "DisplayName" [] (.text [79] .nil) .nil) (.text [10] .nil))
        .nil))).map (fun c1 => (c1.state, c1.nodeset.calls)) =
      (run (initialCtx 0 (some ⟨0⟩)) (Forest.events
        (.elem "UAObject" [] (.elem "DisplayName" [] (.text [79] .nil) .nil)
          (.text [10] .nil)))).map (fun c1 => (c1.state, c1.nodeset.calls)) ∧
    ((initialCtx 0 (some ⟨0⟩)).valIf ≠ none →
      ∃ c1, run (initialCtx 0 (some ⟨0⟩)) (Forest.events
        (.elem "UAObject" [] (.elem "DisplayName" [] (.text [79] .nil) .nil)
          (.text [10] .nil))) = some c1) :=
  transparent_container (initialCtx 0 (some ⟨0⟩)) "UANodeSet" []
    (.elem "UAObject" [] (.elem "DisplayName" [] (.text [79] .nil) .nil) (.text [10] .nil))
    (by decide) (by decide)

/-! ## References and namespaces -/

theorem leafChildEvents_append (name : String) (r : LeafChild) (rest : List SaxEvent) :
    leafChildEvents name r ++ rest =
      r.before.map .characters ++
        (.startElementNs name r.attributes ::
          (r.text.map .characters ++ (.endElementNs name :: rest))) := by
  simp [leafChildEvents, List.append_assoc]

/-- One `Reference` child, handled in the state References. -/
theorem run_reference_child (c : TParserCtx) (r : LeafChild) (rest : List SaxEvent)
    (hs : c.state = .PARSER_STATE_REFERENCES) :
    run c (leafChildEvents REFERENCE r ++ rest) =
      run { c with
        ref := some c.nodeset.fresh
        onCharacters := none
        nodeset := (c.nodeset.record
          (.Nodeset_newReference c.node r.attributes c.nodeset.fresh)).record
          (.Nodeset_newReferenceFinish (some c.nodeset.fresh) c.node
            (accumulate none r.text)) } rest := by
  have hstart : OnStartElementNs c REFERENCE r.attributes =
      some { c with
        state := .PARSER_STATE_REFERENCE
        ref := some c.nodeset.fresh
        nodeset := c.nodeset.record (.Nodeset_newReference c.node r.attributes c.nodeset.fresh)
        onCharacters := none } := by
    simp [OnStartElementNs, startSwitch, hs, strEqual]
  rw [leafChildEvents_append, run_characters, run_cons]
  simp only [dispatch, OnStartElementNs_text_irrelevant, hstart, Option.some_bind]
  rw [run_characters, run_cons]
  simp [dispatch, OnEndElementNs, endSwitch, hs]

theorem referenceCalls_length (node : Option Nat) (rs : List LeafChild) :
    ∀ base, (referenceCalls node base rs).length = 2 * rs.length := by
  induction rs with
  | nil => intro base; rfl
  | cons r rs ih =>
    intro base
    simp only [referenceCalls, List.length_cons, ih]
    omega

/-- The `Reference` children of a `References` element, handled in the state
References. -/
theorem run_reference_children (rs : List LeafChild) (rest : List SaxEvent) :
    ∀ c : TParserCtx, c.state = .PARSER_STATE_REFERENCES →
      ∃ c1, run c (leafChildrenEvents REFERENCE rs ++ rest) = run c1 rest ∧
        c1.state = .PARSER_STATE_REFERENCES ∧ c1.node = c.node ∧ c1.valIf = c.valIf ∧
        c1.nodeset.calls =
          c.nodeset.calls ++ referenceCalls c.node c.nodeset.calls.length rs := by
  induction rs with
  | nil =>
    intro c hs
    exact ⟨c, by simp [leafChildrenEvents], hs, rfl, rfl, by simp [referenceCalls]⟩
  | cons r rs ih =>
    intro c hs
    obtain ⟨c1, h1, hs1, hn1, hv1, hc1⟩ := ih
      { c with
        ref := some c.nodeset.fresh
        onCharacters := none
        nodeset := (c.nodeset.record
          (.Nodeset_newReference c.node r.attributes c.nodeset.fresh)).record
          (.Nodeset_newReferenceFinish (some c.nodeset.fresh) c.node
            (accumulate none r.text)) } (by simpa using hs)
    refine ⟨c1, ?_, hs1, hn1, hv1, ?_⟩
    · rw [leafChildrenEvents, List.append_assoc, run_reference_child c r _ hs, h1]
    · rw [hc1]
      simp [Nodeset.record, Nodeset.fresh, referenceCalls, List.append_assoc]

/-- C14: for a node (state Node) whose `References` element has `k` `Reference`
children holding character data only, the calls added are, for each child in
document order, `Nodeset_newReference` with the owning node and the child's
attributes followed by `Nodeset_newReferenceFinish` with the reference that
call returned, the owning node and the child's accumulated text (its fragments
concatenated when they hold no zero byte): `2 * k` calls, alternating; the
state is Node afterwards. -/
theorem reference_lifecycle (c : TParserCtx) (attrs : Attrs) (rs : List LeafChild)
    (after : List CString) (hs : c.state = .PARSER_STATE_NODE) :
    ∃ c1, run c (referencesElement attrs rs after) = some c1 ∧
      c1.state = .PARSER_STATE_NODE ∧ c1.node = c.node ∧
      c1.nodeset.calls = c.nodeset.calls ++ referenceCalls c.node c.nodeset.calls.length rs ∧
      (referenceCalls c.node c.nodeset.calls.length rs).length = 2 * rs.length ∧
      (∀ r ∈ rs, r.text ≠ [] → (∀ b ∈ r.text.flatten, b ≠ 0) →
        accumulate none r.text = some r.text.flatten) := by
  have hstart : OnStartElementNs c REFERENCES attrs =
      some { c with state := .PARSER_STATE_REFERENCES, onCharacters := none } := by
    simp [OnStartElementNs, startSwitch, hs, strEqual, REFERENCES, DISPLAYNAME]
  obtain ⟨c1, h1, hs1, hn1, _, hc1⟩ := run_reference_children rs
    (after.map .characters ++ [.endElementNs REFERENCES])
    { c with state := .PARSER_STATE_REFERENCES, onCharacters := none } rfl
  refine ⟨{ c1 with state := .PARSER_STATE_NODE, onCharacters := none }, ?_, rfl, hn1, hc1,
    referenceCalls_length _ _ _, fun r _ h1 h2 => accumulate_none _ h1 h2⟩
  rw [referencesElement, run_cons]
  simp only [dispatch, hstart, Option.some_bind]
  rw [h1, run_characters]
  simp [run, dispatch, OnEndElementNs, endSwitch, hs1]

theorem reference_lifecycle_witness :
    ∃ c1, run (startNode (initialCtx 0 none) .NODECLASS_OBJECT [])
        (referencesElement [] [⟨[[10]], [("ReferenceType", "HasTypeDefinition")], [[105, 61], [53, 56]]⟩,
          ⟨[[10]], [("ReferenceType", "Organizes"), ("IsForward", "false")], [[105, 61, 56, 53]]⟩]
          [[10]]) = some c1 ∧
      c1.state = .PARSER_STATE_NODE ∧
      c1.node = (startNode (initialCtx 0 none) .NODECLASS_OBJECT []).node ∧
      c1.nodeset.calls = (startNode (initialCtx 0 none) .NODECLASS_OBJECT []).nodeset.calls ++
        referenceCalls (startNode (initialCtx 0 none) .NODECLASS_OBJECT []).node
          (startNode (initialCtx 0 none) .NODECLASS_OBJECT []).nodeset.calls.length
          [⟨[[10]], [("ReferenceType", "HasTypeDefinition")], [[105, 61], [53, 56]]⟩,
            ⟨[[10]], [("ReferenceType", "Organizes"), ("IsForward", "false")],
              [[105, 61, 56, 53]]⟩] ∧
      (referenceCalls (startNode (initialCtx 0 none) .NODECLASS_OBJECT []).node
          (startNode (initialCtx 0 none) .NODECLASS_OBJECT []).nodeset.calls.length
          [⟨[[10]], [("ReferenceType", "HasTypeDefinition")], [[105, 61], [53, 56]]⟩,
            ⟨[[10]], [("ReferenceType", "Organizes"), ("IsForward", "false")],
              [[105, 61, 56, 53]]⟩]).length =
        2 * [(⟨[[10]], [("ReferenceType", "HasTypeDefinition")], [[105, 61], [53, 56]]⟩ :
            LeafChild),
          ⟨[[10]], [("ReferenceType", "Organizes"), ("IsForward", "false")],
            [[105, 61, 56, 53]]⟩].length ∧
      (∀ r ∈ [(⟨[[10]], [("ReferenceType", "HasTypeDefinition")], [[105, 61], [53, 56]]⟩ :
            LeafChild),
          ⟨[[10]], [("ReferenceType", "Organizes"), ("IsForward", "false")],
            [[105, 61, 56, 53]]⟩],
        r.text ≠ [] → (∀ b ∈ r.text.flatten, b ≠ 0) →
        accumulate none r.text = some r.text.flatten) :=
  reference_lifecycle (startNode (initialCtx 0 none) .NODECLASS_OBJECT []) []
    [⟨[[10]], [("ReferenceType", "HasTypeDefinition")], [[105, 61], [53, 56]]⟩,
      ⟨[[10]], [("ReferenceType", "Organizes"), ("IsForward", "false")], [[105, 61, 56, 53]]⟩]
    [[10]] (by decide)

/-- One `Uri` child, handled in the state NamespaceUris. -/
theorem run_uri_child (c : TParserCtx) (u : LeafChild) (rest : List SaxEvent)
    (hs : c.state = .PARSER_STATE_NAMESPACEURIS) :
    run c (leafChildEvents NAMESPACEURI u ++ rest) =
      run { c with
        onCharacters := none
        nodeset := (c.nodeset.record .Nodeset_newNamespace).record
          (.Nodeset_newNamespaceFinish c.userContext (accumulate none u.text)) } rest := by
  have hstart : OnStartElementNs c NAMESPACEURI u.attributes =
      some { c with
        state := .PARSER_STATE_URI
        nodeset := c.nodeset.record .Nodeset_newNamespace
        onCharacters := none } := by
    simp [OnStartElementNs, startSwitch, hs, strEqual]
  rw [leafChildEvents_append, run_characters, run_cons]
  simp only [dispatch, OnStartElementNs_text_irrelevant, hstart, Option.some_bind]
  rw [run_characters, run_cons]
  simp [dispatch, OnEndElementNs, endSwitch, hs]

theorem namespaceCalls_length (userContext : Nat) (us : List LeafChild) :
    (namespaceCalls userContext us).length = 2 * us.length := by
  induction us with
  | nil => rfl
  | cons u us ih =>
    simp only [namespaceCalls, List.length_cons, ih]
    omega

/-- The `Uri` children of a `NamespaceUris` element, handled in the state
NamespaceUris. -/
theorem run_uri_children (us : List LeafChild) (rest : List SaxEvent) :
    ∀ c : TParserCtx, c.state = .PARSER_STATE_NAMESPACEURIS →
      ∃ c1, run c (leafChildrenEvents NAMESPACEURI us ++ rest) = run c1 rest ∧
        c1.state = .PARSER_STATE_NAMESPACEURIS ∧ c1.userContext = c.userContext ∧
        c1.nodeset.calls = c.nodeset.calls ++ namespaceCalls c.userContext us := by
  induction us with
  | nil =>
    intro c hs
    exact ⟨c, by simp [leafChildrenEvents], hs, rfl, by simp [namespaceCalls]⟩
  | cons u us ih =>
    intro c hs
    obtain ⟨c1, h1, hs1, hu1, hc1⟩ := ih
      { c with
        onCharacters := none
        nodeset := (c.nodeset.record .Nodeset_newNamespace).record
          (.Nodeset_newNamespaceFinish c.userContext (accumulate none u.text)) }
      (by simpa using hs)
    refine ⟨c1, ?_, hs1, hu1, ?_⟩
    · rw [leafChildrenEvents, List.append_assoc, run_uri_child c u _ hs, h1]
    · rw [hc1]
      simp [Nodeset.record, namespaceCalls, List.append_assoc]

theorem OnStartElementNs_namespaceUris (c : TParserCtx) (attrs : Attrs)
    (hs : c.state = .PARSER_STATE_INIT) :
    OnStartElementNs c NAMESPACEURIS attrs =
      some { c with state := .PARSER_STATE_NAMESPACEURIS, onCharacters := none } := by
  rw [OnStartElementNs_init_other c _ attrs hs (by decide)]
  rfl

/-- C15: for a `NamespaceUris` element met in the state Init with `k` `Uri`
children holding character data only, the calls added are, for each child in
document order, `Nodeset_newNamespace` followed by `Nodeset_newNamespaceFinish`
with the caller's user context and the child's accumulated text (its fragments
concatenated when they hold no zero byte): `2 * k` calls; after the start
element and after each `Uri` end-element the state is NamespaceUris, and after
the end-element of `NamespaceUris` it is Init. -/
theorem namespace_lifecycle (c : TParserCtx) (attrs : Attrs) (us : List LeafChild)
    (after : List CString) (hs : c.state = .PARSER_STATE_INIT) :
    (∀ shown, ∃ ci, run c (namespaceUrisPrefix attrs us shown) = some ci ∧
      ci.state = .PARSER_STATE_NAMESPACEURIS ∧ ci.userContext = c.userContext ∧
      ci.nodeset.calls = c.nodeset.calls ++ namespaceCalls c.userContext (us.take shown)) ∧
    (∃ c1, run c (namespaceUrisElement attrs us after) = some c1 ∧
      c1.state = .PARSER_STATE_INIT ∧ c1.userContext = c.userContext ∧
      c1.nodeset.calls = c.nodeset.calls ++ namespaceCalls c.userContext us) ∧
    (namespaceCalls c.userContext us).length = 2 * us.length ∧
    (∀ u ∈ us, u.text ≠ [] → (∀ b ∈ u.text.flatten, b ≠ 0) →
      accumulate none u.text = some u.text.flatten) := by
  have hstart := OnStartElementNs_namespaceUris c attrs hs
  refine ⟨fun shown => ?_, ?_, namespaceCalls_length _ _,
    fun u _ h1 h2 => accumulate_none _ h1 h2⟩
  · obtain ⟨ci, h1, hs1, hu1, hc1⟩ := run_uri_children (us.take shown) []
      { c with state := .PARSER_STATE_NAMESPACEURIS, onCharacters := none } rfl
    refine ⟨ci, ?_, hs1, hu1, hc1⟩
    rw [namespaceUrisPrefix, run_cons]
    simp only [dispatch, hstart, Option.some_bind]
    rw [← List.append_nil (leafChildrenEvents NAMESPACEURI (us.take shown)), h1]
    rfl
  · obtain ⟨c1, h1, hs1, hu1, hc1⟩ := run_uri_children us
      (after.map .characters ++ [.endElementNs NAMESPACEURIS])
      { c with state := .PARSER_STATE_NAMESPACEURIS, onCharacters := none } rfl
    refine ⟨{ c1 with state := .PARSER_STATE_INIT, onCharacters := none }, ?_, rfl, hu1, hc1⟩
    rw [namespaceUrisElement, run_cons]
    simp only [dispatch, hstart, Option.some_bind]
    rw [h1, run_characters]
    simp [run, dispatch, OnEndElementNs, endSwitch, hs1]

theorem namespace_lifecycle_witness :
    (∀ shown, ∃ ci, run (initialCtx 7 none) (namespaceUrisPrefix []
        [⟨[[10]], [], [[104, 116], [116, 112]]⟩, ⟨[], [], [[117, 114, 110]]⟩] shown) = some ci ∧
      ci.state = .PARSER_STATE_NAMESPACEURIS ∧
      ci.userContext = (initialCtx 7 none).userContext ∧
      ci.nodeset.calls = (initialCtx 7 none).nodeset.calls ++
        namespaceCalls (initialCtx 7 none).userContext
          (List.take shown [⟨[[10]], [], [[104, 116], [116, 112]]⟩,
            ⟨[], [], [[117, 114, 110]]⟩])) ∧
    (∃ c1, run (initialCtx 7 none) (namespaceUrisElement []
        [⟨[[10]], [], [[104, 116], [116, 112]]⟩, ⟨[], [], [[117, 114, 110]]⟩] [[10]]) =
        some c1 ∧
      c1.state = .PARSER_STATE_INIT ∧ c1.userContext = (initialCtx 7 none).userContext ∧
      c1.nodeset.calls = (initialCtx 7 none).nodeset.calls ++
        namespaceCalls (initialCtx 7 none).userContext
          [⟨[[10]], [], [[104, 116], [116, 112]]⟩, ⟨[], [], [[117, 114, 110]]⟩]) ∧
    (namespaceCalls (initialCtx 7 none).userContext
        [⟨[[10]], [], [[104, 116], [116, 112]]⟩, ⟨[], [], [[117, 114, 110]]⟩]).length =
      2 * [(⟨[[10]], [], [[104, 116], [116, 112]]⟩ : LeafChild),
        ⟨[], [], [[117, 114, 110]]⟩].length ∧
    (∀ u ∈ [(⟨[[10]], [], [[104, 116], [116, 112]]⟩ : LeafChild), ⟨[], [], [[117, 114, 110]]⟩],
      u.text ≠ [] → (∀ b ∈ u.text.flatten, b ≠ 0) →
      accumulate none u.text = some u.text.flatten) :=
  namespace_lifecycle (initialCtx 7 none) []
    [⟨[[10]], [], [[104, 116], [116, 112]]⟩, ⟨[], [], [[117, 114, 110]]⟩] [[10]] (by decide)

/-! ## Chunked feeding -/

theorem fedBytes_cons (x : LoaderCall) (xs : List LoaderCall) :
    fedBytes (x :: xs) = x.chunk ++ fedBytes xs := by
  simp [fedBytes]

/-- The feeds made by the loop of `read_xmlfile` and what follows them: the
loop feeds `body`, each made on the tokenizer state left by the one before,
stop at the first one that reports an error. -/
theorem feedLoop_feeds {τ : Type} (tok : Tokenizer τ) (fuel : Nat) :
    ∀ (t : τ) (c : TParserCtx) (rest : CString) (feeds : List LoaderCall) (r : ReadResult),
      rest.length ≤ fuel → feedLoop tok fuel t c rest feeds = some r →
      ∃ body : List LoaderCall, body.all LoaderCall.isLoopFeed = true ∧
        r.feeds = feeds ++ (body ++ (if r.ret = 0 then [.xmlParseChunk [] true] else [])) ∧
        (∃ unread, rest = fedBytes body ++ unread) ∧
        (r.ret = 0 → fedBytes body = rest) ∧
        (r.ret = 0 ∨ r.ret = 1) ∧
        (r.ret = 0 ↔ ∀ s ∈ feedStatuses tok t body, s = 0) ∧
        (r.ret ≠ 0 → ∃ (b : List LoaderCall) (chunk : CString),
          body = b ++ [.xmlParseChunk chunk false] ∧
          ∀ s ∈ feedStatuses tok t b, s = 0) ∧
        run c (feedEvents tok t
          (body ++ (if r.ret = 0 then [.xmlParseChunk [] true] else []))) = some r.ctx := by
  induction fuel with
  | zero =>
    intro t c rest feeds r hlen h
    have hrest : rest = [] := List.length_eq_zero.mp (Nat.le_zero.mp hlen)
    subst hrest
    simp only [feedLoop, finalFeed] at h
    cases hrun : run c (tok.xmlParseChunk t [] true).2.1 with
    | none => simp [hrun] at h
    | some c1 =>
      simp only [hrun, Option.some.injEq] at h
      subst h
      exact ⟨[], rfl, by simp, ⟨[], by simp [fedBytes]⟩, fun _ => by simp [fedBytes],
        Or.inl rfl, by simp [feedStatuses], fun h => absurd rfl h,
        by simpa [feedEvents] using hrun⟩
  | succ n ih =>
    intro t c rest feeds r hlen h
    unfold feedLoop at h
    by_cases hpos : 0 < (rest.take 1024).length
    · simp only [hpos, if_true] at h
      cases hrun : run c (tok.xmlParseChunk t (rest.take 1024) false).2.1 with
      | none => simp [hrun] at h
      | some c1 =>
        simp only [hrun] at h
        have hsize : (rest.take 1024).length ≤ 1024 := by
          rw [List.length_take]; omega
        by_cases herr : (tok.xmlParseChunk t (rest.take 1024) false).2.2 ≠ 0
        · rw [if_pos herr] at h
          simp only [Option.some.injEq] at h
          subst h
          refine ⟨[.xmlParseChunk (rest.take 1024) false], ?_, by simp,
            ⟨rest.drop 1024, by simp [fedBytes, LoaderCall.chunk]⟩,
            fun h => absurd h (by simp), Or.inr rfl, ?_,
            fun _ => ⟨[], rest.take 1024, rfl, by simp [feedStatuses]⟩, ?_⟩
          · simp [LoaderCall.isLoopFeed, hsize]
          · simp only [feedStatuses, List.mem_singleton, forall_eq]
            constructor
            · intro h0
              exact absurd h0 (by simp)
            · intro h0
              exact absurd h0 herr
          · simpa [feedEvents] using hrun
        · rw [if_neg herr] at h
          have hzero : (tok.xmlParseChunk t (rest.take 1024) false).2.2 = 0 := by
            by_contra hne
            exact herr hne
          have hrest : 0 < rest.length := by
            rw [List.length_take] at hpos; omega
          obtain ⟨body, hb1, hb2, ⟨unread, hb3⟩, hb4, hb5, hb6, hb7, hb8⟩ := ih _ c1
            (rest.drop 1024) (feeds ++ [.xmlParseChunk (rest.take 1024) false]) r
            (by rw [List.length_drop]; omega) h
          refine ⟨.xmlParseChunk (rest.take 1024) false :: body, ?_, ?_, ⟨unread, ?_⟩, ?_, hb5,
            ?_, ?_, ?_⟩
          · simp [LoaderCall.isLoopFeed, hsize, hb1]
          · rw [hb2]; simp
          · rw [fedBytes_cons, List.append_assoc, ← hb3]
            simp [LoaderCall.chunk]
          · intro h0
            rw [fedBytes_cons, hb4 h0]
            simp [LoaderCall.chunk]
          · rw [hb6]
            simp [feedStatuses, hzero]
          · intro h0
            obtain ⟨b, chunk, hbb, hst⟩ := hb7 h0
            refine ⟨.xmlParseChunk (rest.take 1024) false :: b, chunk, by rw [hbb]; rfl, ?_⟩
            simpa [feedStatuses, hzero] using hst
          · rw [List.cons_append, feedEvents, run_append, hrun, Option.some_bind]
            exact hb8
    · simp only [hpos, if_false, finalFeed] at h
      have hrest : rest = [] := by
        cases rest with
        | nil => rfl
        | cons x xs => simp at hpos
      subst hrest
      cases hrun : run c (tok.xmlParseChunk t [] true).2.1 with
      | none => simp [hrun] at h
      | some c1 =>
        simp only [hrun, Option.some.injEq] at h
        subst h
        exact ⟨[], rfl, by simp, ⟨[], by simp [fedBytes]⟩, fun _ => by simp [fedBytes],
          Or.inl rfl, by simp [feedStatuses], fun h => absurd rfl h,
          by simpa [feedEvents] using hrun⟩

/-- C16: on an empty file `read_xmlfile` returns 1 without creating a
tokenizer. Otherwise its tokenizer calls are: the creation with the first (at
most 4) bytes, then the loop feeds `body`, non-terminating and of at most 1024
bytes each, then, when it returns 0, exactly one terminating feed of no bytes.
The chunks, in the order fed, are a prefix of the file. With the statuses taken
from the tokenizer as it is actually fed (each feed on the state left by the
one before, starting from the created tokenizer): it returns 0 exactly when no
loop feed reports an error, and then the chunks are the whole file; otherwise
it returns 1, every feed before the last reported no error and the last one
did. The events handled are those the tokenizer delivers on these feeds. It
returns whenever no handler can dereference a null pointer. -/
theorem chunked_feeding {τ : Type} (tok : Tokenizer τ) (f : CString) (c : TParserCtx) :
    (f = [] → read_xmlfile tok f c = some ⟨1, c, []⟩) ∧
    (f ≠ [] → ∀ r, read_xmlfile tok f c = some r →
      (f.take 4).length ≤ 4 ∧
      ∃ body : List LoaderCall, body.all LoaderCall.isLoopFeed = true ∧
        r.feeds = .xmlCreatePushParserCtxt (f.take 4) ::
          (body ++ (if r.ret = 0 then [.xmlParseChunk [] true] else [])) ∧
        (∃ unread, f = fedBytes (.xmlCreatePushParserCtxt (f.take 4) :: body) ++ unread) ∧
        (r.ret = 0 ∨ r.ret = 1) ∧
        (r.ret = 0 ↔
          ∀ s ∈ feedStatuses tok (tok.xmlCreatePushParserCtxt (f.take 4)) body, s = 0) ∧
        (r.ret = 0 → fedBytes r.feeds = f) ∧
        (r.ret ≠ 0 → ∃ (b : List LoaderCall) (chunk : CString),
          body = b ++ [.xmlParseChunk chunk false] ∧
          (∀ s ∈ feedStatuses tok (tok.xmlCreatePushParserCtxt (f.take 4)) b, s = 0) ∧
          ¬ ∀ s ∈ feedStatuses tok (tok.xmlCreatePushParserCtxt (f.take 4)) body, s = 0) ∧
        run c (feedEvents tok (tok.xmlCreatePushParserCtxt (f.take 4))
          (body ++ (if r.ret = 0 then [.xmlParseChunk [] true] else []))) = some r.ctx) ∧
    (safeCtx c = true → ∃ r, read_xmlfile tok f c = some r) := by
  refine ⟨?_, ?_, fun h => read_xmlfile_returns tok f c h⟩
  · intro hf
    subst hf
    rfl
  · intro hf r h
    have hlen : ¬ (f.take 4).length ≤ 0 := by
      cases f with
      | nil => exact absurd rfl hf
      | cons x xs => simp
    simp only [read_xmlfile, hlen, if_false] at h
    obtain ⟨body, hb1, hb2, ⟨unread, hb3⟩, hb4, hb5, hb6, hb7, hb8⟩ :=
      feedLoop_feeds tok _ _ c (f.drop 4) _ r (Nat.le_refl _) h
    refine ⟨by rw [List.length_take]; omega, body, hb1, by rw [hb2]; rfl, ⟨unread, ?_⟩, hb5,
      hb6, ?_, ?_, hb8⟩
    · rw [fedBytes_cons, List.append_assoc, ← hb3]
      simp [LoaderCall.chunk]
    · intro h0
      rw [hb2]
      simp only [h0, if_true, List.singleton_append, fedBytes_cons, LoaderCall.chunk]
      have : fedBytes (body ++ [LoaderCall.xmlParseChunk [] true]) = fedBytes body := by
        simp [fedBytes, LoaderCall.chunk]
      rw [this, hb4 h0]
      simp
    · intro h0
      obtain ⟨b, chunk, hbb, hst⟩ := hb7 h0
      exact ⟨b, chunk, hbb, hst, fun hall => h0 (hb6.mpr hall)⟩

set_option maxRecDepth 100000 in
theorem read_xmlfile_chunks_example :
    (read_xmlfile (sampleTokenizer [] 0 [] 0)
        (List.replicate 1030 (32 : Byte)) (initialCtx 0 none)).map (fun r => (r.ret, r.feeds)) =
      some (0, [.xmlCreatePushParserCtxt (List.replicate 4 32),
        .xmlParseChunk (List.replicate 1024 32) false,
        .xmlParseChunk (List.replicate 2 32) false, .xmlParseChunk [] true]) := by
  decide

set_option maxRecDepth 100000 in
theorem read_xmlfile_stops_example :
    (read_xmlfile (countingTokenizer 1029)
        (List.replicate 1040 (32 : Byte)) (initialCtx 0 none)).map (fun r => (r.ret, r.feeds)) =
      some (1, [.xmlCreatePushParserCtxt (List.replicate 4 32),
        .xmlParseChunk (List.replicate 1024 32) false,
        .xmlParseChunk (List.replicate 12 32) false]) ∧
    feedStatuses (countingTokenizer 1029) 4
      [.xmlParseChunk (List.replicate 1024 32) false,
        .xmlParseChunk (List.replicate 12 32) false] = [0, 5] := by
  decide

/-! ## The unknown-depth invariant -/

theorem endTarget_ne_unknown (s : TParserState) (name : String)
    (h : s ≠ .PARSER_STATE_UNKNOWN) : endTarget s name ≠ .PARSER_STATE_UNKNOWN := by
  cases s <;> simp only [endTarget] <;> first
    | exact absurd rfl h
    | decide
    | (split_ifs <;> decide)

theorem depthInv_iff (c : TParserCtx) :
    depthInv c = true ↔
      (c.state = .PARSER_STATE_UNKNOWN → 1 ≤ c.unknown_depth) ∧
      (c.state ≠ .PARSER_STATE_UNKNOWN → c.unknown_depth = 0) ∧
      c.prev_state ≠ .PARSER_STATE_UNKNOWN := by
  unfold depthInv
  by_cases h : c.state = .PARSER_STATE_UNKNOWN <;> simp [h]

/-- Every handler keeps the unknown-depth invariant. -/
theorem dispatch_depthInv (c c1 : TParserCtx) (e : SaxEvent) (hinv : depthInv c = true)
    (h : dispatch c e = some c1) : depthInv c1 = true := by
  obtain ⟨h1, h2, h3⟩ := (depthInv_iff c).mp hinv
  rw [depthInv_iff]
  cases e with
  | characters ch =>
    simp only [dispatch, Option.some.injEq] at h
    subst h
    exact ⟨h1, h2, h3⟩
  | startElementNs name attrs =>
    simp only [dispatch] at h
    by_cases hU : c.state = .PARSER_STATE_UNKNOWN
    · rw [OnStartElementNs_unknown c name attrs hU] at h
      simp only [Option.some.injEq] at h
      subst h
      exact ⟨fun _ => by simp, fun hne => absurd hU hne, h3⟩
    · by_cases hT : startTarget c.state name = .PARSER_STATE_UNKNOWN
      · obtain ⟨hV, hrec⟩ := startTarget_unknown c.state name hU hT
        rw [OnStartElementNs_unrecognised c name attrs hU hV hrec] at h
        simp only [Option.some.injEq] at h
        subst h
        exact ⟨fun _ => by simp [enterUnknownState],
          fun hne => absurd (show (enterUnknownState c).state = .PARSER_STATE_UNKNOWN from rfl) hne,
          by simpa [enterUnknownState] using hU⟩
      · obtain ⟨hs, hd⟩ := OnStartElementNs_state c c1 name attrs hU h
        obtain ⟨hd1, hd2⟩ := hd hT
        exact ⟨fun hu => absurd (hs ▸ hu) hT, fun _ => by rw [hd1]; exact h2 hU,
          by rw [hd2]; exact h3⟩
  | endElementNs name =>
    simp only [dispatch] at h
    by_cases hU : c.state = .PARSER_STATE_UNKNOWN
    · have hge := h1 hU
      by_cases hone : c.unknown_depth = 1
      · rw [OnEndElementNs_unknown_last c name hU hone] at h
        simp only [Option.some.injEq] at h
        subst h
        exact ⟨fun hu => absurd hu h3, fun _ => rfl, h3⟩
      · rw [OnEndElementNs_unknown_deep c name hU (by omega)] at h
        simp only [Option.some.injEq] at h
        subst h
        exact ⟨fun _ => by simp only; omega, fun hne => absurd hU hne, h3⟩
    · obtain ⟨hs, hd, hp⟩ := OnEndElementNs_state c c1 name hU h
      exact ⟨fun hu => absurd (hs ▸ hu) (endTarget_ne_unknown _ _ hU),
        fun _ => by rw [hd]; exact h2 hU, by rw [hp]; exact h3⟩

theorem run_depthInv (es : List SaxEvent) :
    ∀ c c1 : TParserCtx, depthInv c = true → run c es = some c1 → depthInv c1 = true := by
  induction es with
  | nil =>
    intro c c1 hinv h
    simp only [run, Option.some.injEq] at h
    subst h
    exact hinv
  | cons e es ih =>
    intro c c1 hinv h
    rw [run_cons] at h
    cases hd : dispatch c e with
    | none => simp [hd] at h
    | some c2 =>
      rw [hd, Option.some_bind] at h
      exact ih c2 c1 (dispatch_depthInv c c2 e hinv hd) h

/-- C20: after any sequence of start-element, end-element and character events
(well-nested or not) handled from the initial context, hence in every context
reached on the way, `unknown_depth` is at least 1 exactly when the state is
Unknown and 0 otherwise, and the saved state is not Unknown; so an end-element
met in the state Unknown decrements a positive `unknown_depth` and the unsigned
decrement does not wrap. The run returns whenever the decoder interface is
present. -/
theorem unknown_depth_invariant (es : List SaxEvent) (userContext : Nat)
    (valIf : Option ValueInterface) :
    (∀ c1, run (initialCtx userContext valIf) es = some c1 →
      (c1.state = .PARSER_STATE_UNKNOWN ↔ 1 ≤ c1.unknown_depth) ∧
      (c1.state ≠ .PARSER_STATE_UNKNOWN → c1.unknown_depth = 0) ∧
      c1.prev_state ≠ .PARSER_STATE_UNKNOWN ∧
      (c1.state = .PARSER_STATE_UNKNOWN → ∀ name, ∃ c2, OnEndElementNs c1 name = some c2 ∧
        c2.unknown_depth + 1 = c1.unknown_depth)) ∧
    (valIf ≠ none → ∃ c1, run (initialCtx userContext valIf) es = some c1) := by
  constructor
  · intro c1 h
    have hinv := run_depthInv es (initialCtx userContext valIf) c1 (by rfl) h
    obtain ⟨h1, h2, h3⟩ := (depthInv_iff c1).mp hinv
    refine ⟨⟨h1, fun hge => ?_⟩, h2, h3, fun hU name => ?_⟩
    · by_contra hne
      have := h2 hne
      omega
    · have hge := h1 hU
      by_cases hone : c1.unknown_depth = 1
      · exact ⟨_, OnEndElementNs_unknown_last c1 name hU hone, by simp [hone]⟩
      · exact ⟨_, OnEndElementNs_unknown_deep c1 name hU (by omega), by simp only; omega⟩
  · intro hv
    obtain ⟨v, hv1⟩ := Option.ne_none_iff_exists'.mp hv
    obtain ⟨c1, h1, _⟩ := run_safe es (initialCtx userContext valIf)
      (by simp [safeCtx, initialCtx, hv1, needsNode])
    exact ⟨c1, h1⟩

/-! ## Text reset on end-element -/

theorem OnEndElementNs_text (c c1 : TParserCtx) (name : String)
    (h : OnEndElementNs c name = some c1) : c1.onCharacters = none := by
  unfold OnEndElementNs at h
  cases hsw : endSwitch c name with
  | none => simp [hsw] at h
  | some c2 =>
    simp only [hsw, Option.map_some', Option.some.injEq] at h
    rw [← h]

theorem dispatch_element_text (c0 c : TParserCtx) (e : SaxEvent)
    (he : e.isElement = true) (h : dispatch c0 e = some c) : c.onCharacters = none := by
  cases e with
  | characters ch => exact absurd he Bool.false_ne_true
  | startElementNs name attrs => exact OnStartElementNs_text c0 c name attrs h
  | endElementNs name => exact OnEndElementNs_text c0 c name h

/-- C19: in every context `OnEndElementNs` leaves the accumulated text empty
whenever it returns (and it returns in every context where no null pointer is
dereferenced). Hence after a start-element or end-element event, the fragments
`fs` delivered next and an end-element, the finaliser reached in the states
Alias, Uri, Reference, DisplayName and Value receives exactly the text
accumulated from `fs`: null when there are no fragments, their concatenation
when they hold no zero byte. -/
theorem end_element_resets_text (c0 c : TParserCtx) (e : SaxEvent) (name : String)
    (fs : List CString) :
    (∀ c1, OnEndElementNs c name = some c1 → c1.onCharacters = none) ∧
    (safeCtx c = true → ∃ c1, OnEndElementNs c name = some c1) ∧
    (e.isElement = true → dispatch c0 e = some c →
      run c0 (e :: (fs.map .characters ++ [.endElementNs name])) =
        OnEndElementNs { c with onCharacters := accumulate none fs } name ∧
      (c.state = .PARSER_STATE_ALIAS →
        (run c0 (e :: (fs.map .characters ++ [.endElementNs name]))).map
            (fun c1 => c1.nodeset.calls) =
          some (c.nodeset.calls ++ [.Nodeset_newAliasFinish c.alias_ (accumulate none fs)])) ∧
      (c.state = .PARSER_STATE_URI →
        (run c0 (e :: (fs.map .characters ++ [.endElementNs name]))).map
            (fun c1 => c1.nodeset.calls) =
          some (c.nodeset.calls ++
            [.Nodeset_newNamespaceFinish c.userContext (accumulate none fs)])) ∧
      (c.state = .PARSER_STATE_REFERENCE →
        (run c0 (e :: (fs.map .characters ++ [.endElementNs name]))).map
            (fun c1 => c1.nodeset.calls) =
          some (c.nodeset.calls ++
            [.Nodeset_newReferenceFinish c.ref c.node (accumulate none fs)])) ∧
      (c.state = .PARSER_STATE_DISPLAYNAME → ∀ n, c.node = some n →
        (run c0 (e :: (fs.map .characters ++ [.endElementNs name]))).map
            (fun c1 => c1.nodeset.calls) =
          some (c.nodeset.calls ++ [.store_displayName n (accumulate none fs)])) ∧
      (c.state = .PARSER_STATE_VALUE → c.valIf ≠ none → name ≠ VALUE →
        (run c0 (e :: (fs.map .characters ++ [.endElementNs name]))).map
            (fun c1 => c1.nodeset.calls) =
          some (c.nodeset.calls ++ [.valIf_end c.val name (accumulate none fs)]))) ∧
    accumulate none [] = none ∧
    (fs ≠ [] → (∀ b ∈ fs.flatten, b ≠ 0) → accumulate none fs = some fs.flatten) := by
  refine ⟨fun c1 h => OnEndElementNs_text c c1 name h, ?_, ?_, rfl,
    fun h1 h2 => accumulate_none fs h1 h2⟩
  · intro hsafe
    obtain ⟨c1, h1, _⟩ := dispatch_safe c (.endElementNs name) hsafe
    exact ⟨c1, h1⟩
  · intro he hd
    have htext := dispatch_element_text c0 c e he hd
    have hrun : run c0 (e :: (fs.map .characters ++ [.endElementNs name])) =
        OnEndElementNs { c with onCharacters := accumulate none fs } name := by
      rw [run_cons, hd, Option.some_bind, run_characters, htext]
      simp [run, dispatch]
    refine ⟨hrun, ?_, ?_, ?_, ?_, ?_⟩
    · intro hs
      rw [hrun]
      simp [OnEndElementNs, endSwitch, hs, Nodeset.record]
    · intro hs
      rw [hrun]
      simp [OnEndElementNs, endSwitch, hs, Nodeset.record]
    · intro hs
      rw [hrun]
      simp [OnEndElementNs, endSwitch, hs, Nodeset.record]
    · intro hs n hn
      rw [hrun]
      simp [OnEndElementNs, endSwitch, hs, hn, Nodeset.record]
    · intro hs hv hname
      obtain ⟨v, hv1⟩ := Option.ne_none_iff_exists'.mp hv
      rw [hrun]
      simp [OnEndElementNs, endSwitch, hs, hv1, hname, Nodeset.record]

/-! ## Every created node is finalised once -/

theorem pairScan_record (ns : Nodeset) (call : Call) :
    pairScan (ns.record call).calls = pairStep (pairScan ns.calls) call := by
  simp [pairScan, Nodeset.record, List.foldl_append]

theorem pair_start (c c1 : TParserCtx) (name : String) (attrs : Attrs)
    (h1 : pairScan c.nodeset.calls = some (if nodeGroup c then c.node else none))
    (h2 : nodeGroup c = true → c.node ≠ none)
    (h : OnStartElementNs c name attrs = some c1) :
    pairScan c1.nodeset.calls = some (if nodeGroup c1 then c1.node else none) ∧
      (nodeGroup c1 = true → c1.node ≠ none) := by
  by_cases hU : c.state = .PARSER_STATE_UNKNOWN
  · rw [OnStartElementNs_unknown c name attrs hU] at h
    simp only [Option.some.injEq] at h
    subst h
    simp only [nodeGroup, hU, if_true] at h1 h2 ⊢
    exact ⟨h1, h2⟩
  · by_cases hT : startTarget c.state name = .PARSER_STATE_UNKNOWN
    · obtain ⟨hV, hrec⟩ := startTarget_unknown c.state name hU hT
      rw [OnStartElementNs_unrecognised c name attrs hU hV hrec] at h
      simp only [Option.some.injEq] at h
      subst h
      simp only [nodeGroup, hU, if_false] at h1 h2
      simp only [nodeGroup, enterUnknownState, if_true]
      exact ⟨h1, h2⟩
    · by_cases hI : c.state = .PARSER_STATE_INIT
      · simp only [nodeGroup, hI, reduceCtorEq, if_false, needsNode, Bool.false_eq_true] at h1
        cases hn : nodeClassOf name with
        | some cls =>
          rw [OnStartElementNs_init_node c name attrs cls hI hn] at h
          simp only [Option.some.injEq] at h
          subst h
          simp [startNode, nodeGroup, needsNode, pairScan_record, h1, pairStep, Nodeset.fresh]
        | none =>
          rw [OnStartElementNs_init_other c name attrs hI hn] at h
          split_ifs at h <;> simp only [Option.some.injEq] at h <;> subst h <;>
            simp_all [nodeGroup, needsNode, pairScan_record, pairStep, enterUnknownState]
      · cases hv : c.valIf <;> cases hs : c.state
        all_goals first
          | exact absurd hs hI
          | exact absurd hs hU
          | skip
        all_goals simp only [OnStartElementNs, startSwitch, hs, hv] at h
        all_goals (try split_ifs at h)
        all_goals (try simp only [Option.map_some', Option.some.injEq, Option.map_none',
          reduceCtorEq] at h)
        all_goals (try subst h)
        all_goals simp_all [nodeGroup, needsNode, pairScan_record, pairStep, enterUnknownState]

theorem pair_end (c c1 : TParserCtx) (name : String)
    (hd : depthInv c = true)
    (h1 : pairScan c.nodeset.calls = some (if nodeGroup c then c.node else none))
    (h2 : nodeGroup c = true → c.node ≠ none)
    (h : OnEndElementNs c name = some c1) :
    pairScan c1.nodeset.calls = some (if nodeGroup c1 then c1.node else none) ∧
      (nodeGroup c1 = true → c1.node ≠ none) := by
  obtain ⟨hd1, hd2, hd3⟩ := (depthInv_iff c).mp hd
  by_cases hU : c.state = .PARSER_STATE_UNKNOWN
  · have hge := hd1 hU
    simp only [nodeGroup, hU, if_true] at h1 h2
    by_cases hone : c.unknown_depth = 1
    · rw [OnEndElementNs_unknown_last c name hU hone] at h
      simp only [Option.some.injEq] at h
      subst h
      simp only [nodeGroup, hd3, if_false]
      exact ⟨h1, h2⟩
    · rw [OnEndElementNs_unknown_deep c name hU (by omega)] at h
      simp only [Option.some.injEq] at h
      subst h
      simp only [nodeGroup, hU, if_true]
      exact ⟨h1, h2⟩
  · cases hv : c.valIf <;> cases hn : c.node <;> cases hs : c.state
    all_goals first
      | exact absurd hs hU
      | skip
    all_goals simp only [OnEndElementNs, endSwitch, hs, hv, hn] at h
    all_goals (try split_ifs at h)
    all_goals (try simp only [Option.map_some', Option.some.injEq, Option.map_none',
      reduceCtorEq] at h)
    all_goals (try subst h)
    all_goals simp_all [nodeGroup, needsNode, pairScan_record, pairStep]

/-- Along any sequence of events the node calls alternate: the log checks out
with the current node open exactly when the context is inside a node. -/
theorem run_pairing (es : List SaxEvent) :
    ∀ c c1 : TParserCtx, depthInv c = true →
      pairScan c.nodeset.calls = some (if nodeGroup c then c.node else none) →
      (nodeGroup c = true → c.node ≠ none) → run c es = some c1 →
      pairScan c1.nodeset.calls = some (if nodeGroup c1 then c1.node else none) ∧
        (nodeGroup c1 = true → c1.node ≠ none) := by
  induction es with
  | nil =>
    intro c c1 _ h1 h2 h
    simp only [run, Option.some.injEq] at h
    subst h
    exact ⟨h1, h2⟩
  | cons e es ih =>
    intro c c1 hd h1 h2 h
    rw [run_cons] at h
    cases hdis : dispatch c e with
    | none => simp [hdis] at h
    | some c2 =>
      rw [hdis, Option.some_bind] at h
      have hd2 := dispatch_depthInv c c2 e hd hdis
      have hp : pairScan c2.nodeset.calls = some (if nodeGroup c2 then c2.node else none) ∧
          (nodeGroup c2 = true → c2.node ≠ none) := by
        cases e with
        | characters ch =>
          simp only [dispatch, Option.some.injEq] at hdis
          subst hdis
          exact ⟨h1, h2⟩
        | startElementNs name attrs => exact pair_start c c2 name attrs h1 h2 hdis
        | endElementNs name => exact pair_end c c2 name hd h1 h2 hdis
      exact ih c2 c1 hd2 hp.1 hp.2 h

/-- C17: for every well-nested event sequence handled from the initial context,
the calls of `Nodeset_newNode` and `Nodeset_newNodeFinish` in the log strictly
alternate, starting with `Nodeset_newNode`; each `Nodeset_newNodeFinish`
receives the node returned by the `Nodeset_newNode` before it; and at the end
no created node is left unfinalised (the check `pairScan` ends in `some none`).
The run returns whenever the decoder interface is present. -/
theorem nodes_finalised_once (doc : Forest) (userContext : Nat)
    (valIf : Option ValueInterface) :
    (∀ c1, run (initialCtx userContext valIf) doc.events = some c1 →
      pairScan c1.nodeset.calls = some none) ∧
    (valIf ≠ none → ∃ c1, run (initialCtx userContext valIf) doc.events = some c1) := by
  constructor
  · intro c1 h
    obtain ⟨hp, _⟩ := run_pairing doc.events (initialCtx userContext valIf) c1 (by rfl)
      (by rfl) (fun h => absurd h Bool.false_ne_true) h
    have hs := (run_from_init doc (initialCtx userContext valIf) c1 rfl h).1
    rw [hp]
    simp [nodeGroup, hs, needsNode]
  · intro hv
    obtain ⟨v, hv1⟩ := Option.ne_none_iff_exists'.mp hv
    obtain ⟨c1, h1, _⟩ := run_safe doc.events (initialCtx userContext valIf)
      (by simp [safeCtx, initialCtx, hv1, needsNode])
    exact ⟨c1, h1⟩

theorem pairScan_example :
    (run (initialCtx 0 (some ⟨0⟩))
        (Forest.events (.elem "UANodeSet" []
          (.elem "UAObject" [] (.elem "UAVariable" [] .nil .nil)
            (.elem "UAVariable" [] (.elem "Value" [] (.elem "Value" [] .nil .nil) .nil) .nil))
          .nil))).map (fun c => (c.nodeset.calls, pairScan c.nodeset.calls)) =
      some ([.Nodeset_newNode .NODECLASS_OBJECT [] 0, .Nodeset_newNodeFinish (some 0),
        .Nodeset_newNode .NODECLASS_VARIABLE [] 2, .valIf_newValue (some 2) 3,
        .valIf_start (some 3) "Value", .valIf_finish (some 3), .store_value 2 (some 3),
        .Nodeset_newNodeFinish (some 2)], some none) ∧
    pairScan [.Nodeset_newNode .NODECLASS_OBJECT [] 0,
      .Nodeset_newNode .NODECLASS_OBJECT [] 1] = none ∧
    pairScan [.Nodeset_newNode .NODECLASS_OBJECT [] 0, .Nodeset_newNodeFinish (some 5)] = none ∧
    pairScan [.Nodeset_newNode .NODECLASS_OBJECT [] 0] = some (some 0) := by
  decide

/-! ## The range of `unknown_depth` -/

theorem dispatch_depth_step (c c1 : TParserCtx) (e : SaxEvent) (hinv : depthInv c = true)
    (h : dispatch c e = some c1) : c1.unknown_depth ≤ c.unknown_depth + 1 := by
  obtain ⟨h1, h2, _⟩ := (depthInv_iff c).mp hinv
  cases e with
  | characters ch =>
    simp only [dispatch, Option.some.injEq] at h
    subst h
    exact Nat.le_succ _
  | startElementNs name attrs =>
    simp only [dispatch] at h
    by_cases hU : c.state = .PARSER_STATE_UNKNOWN
    · rw [OnStartElementNs_unknown c name attrs hU] at h
      simp only [Option.some.injEq] at h
      subst h
      exact Nat.le_refl _
    · by_cases hT : startTarget c.state name = .PARSER_STATE_UNKNOWN
      · obtain ⟨hV, hrec⟩ := startTarget_unknown c.state name hU hT
        rw [OnStartElementNs_unrecognised c name attrs hU hV hrec] at h
        simp only [Option.some.injEq] at h
        subst h
        simp [enterUnknownState]
      · obtain ⟨_, hd⟩ := OnStartElementNs_state c c1 name attrs hU h
        rw [(hd hT).1]
        exact Nat.le_succ _
  | endElementNs name =>
    simp only [dispatch] at h
    by_cases hU : c.state = .PARSER_STATE_UNKNOWN
    · have hge := h1 hU
      by_cases hone : c.unknown_depth = 1
      · rw [OnEndElementNs_unknown_last c name hU hone] at h
        simp only [Option.some.injEq] at h
        subst h
        simp
      · rw [OnEndElementNs_unknown_deep c name hU (by omega)] at h
        simp only [Option.some.injEq] at h
        subst h
        simp only
        omega
    · obtain ⟨_, hd, _⟩ := OnEndElementNs_state c c1 name hU h
      rw [hd]
      exact Nat.le_succ _

/-- From the initial context `unknown_depth` never exceeds the number of events
handled: on inputs of fewer than `2 ^ 64` events the counter stays in the range
of `size_t`, where the unwrapped increment of the model and the increment of
the code agree. -/
theorem unknown_depth_le_events (es : List SaxEvent) :
    ∀ c c1 : TParserCtx, depthInv c = true → run c es = some c1 →
      c1.unknown_depth ≤ c.unknown_depth + es.length := by
  induction es with
  | nil =>
    intro c c1 _ h
    simp only [run, Option.some.injEq] at h
    subst h
    simp
  | cons e es ih =>
    intro c c1 hinv h
    rw [run_cons] at h
    cases hd : dispatch c e with
    | none => simp [hd] at h
    | some c2 =>
      rw [hd, Option.some_bind] at h
      have h1 := dispatch_depth_step c c2 e hinv hd
      have h2 := ih c2 c1 (dispatch_depthInv c c2 e hinv hd) h
      simp only [List.length_cons]
      omega

end NodesetLoader
